import Mathlib

set_option maxRecDepth 16384

/-!
Verification of the analysis-and-delta core of the documentation-consistency
analyzer.  The TypeScript sources are shallowly embedded:

* JavaScript numbers are modelled exactly by `JSNumber`, an unreduced
  fraction (integer numerator, positive natural denominator).  All the
  arithmetic performed by the embedded code (integer penalties, one
  division by `totalFiles`, unit-conversion factors) is exact in doubles
  for the magnitudes involved, so the rational model is faithful.
* Strings are processed as `List Char`; the JavaScript regular-expression
  passes of `normalizeMessage`, the numerical-consistency extractor and
  `slugify` are implemented as explicit left-to-right scanners with the
  same match/replace semantics (leftmost match, non-overlapping, greedy
  quantifiers, case-insensitive where the source uses the `i` flag).
* The IndexedDB-backed state consulted by `computeDelta` and
  `saveAnalysis` (previous run, ever-resolved fingerprints, status map,
  previously stored issues) is passed in explicitly; JavaScript `Map` /
  `Set` objects are modelled by association lists with insertion-order
  iteration, as in the JS semantics.
-/

/-! ## Exact model of JavaScript number arithmetic -/

/-- Exact rational model of a JavaScript number: an unreduced fraction.
Every operation below keeps the denominator positive by construction
(the only division performed by the embedded code has a positive
divisor). -/
structure JSNumber where
  num : Int
  den : Nat
deriving Repr, DecidableEq

namespace JSNumber

/-- Embed an integer. -/
def ofInt (n : Int) : JSNumber := ⟨n, 1⟩

/-- Addition of fractions (no reduction). -/
def add (a b : JSNumber) : JSNumber := ⟨a.num * b.den + b.num * a.den, a.den * b.den⟩

/-- Subtraction of fractions (no reduction). -/
def sub (a b : JSNumber) : JSNumber := ⟨a.num * b.den - b.num * a.den, a.den * b.den⟩

/-- Multiplication of fractions. -/
def mul (a b : JSNumber) : JSNumber := ⟨a.num * b.num, a.den * b.den⟩

/-- Reciprocal; the sign moves to the numerator so the denominator stays
nonnegative. -/
def inv (a : JSNumber) : JSNumber :=
  if 0 ≤ a.num then ⟨(a.den : Int), a.num.toNat⟩ else ⟨-(a.den : Int), a.num.natAbs⟩

/-- Division of fractions. -/
def div (a b : JSNumber) : JSNumber := a.mul b.inv

/-- Strict comparison `a < b` by cross-multiplication (denominators are
positive by construction). -/
def blt (a b : JSNumber) : Bool := a.num * (b.den : Int) < b.num * (a.den : Int)

/-- Comparison `a ≤ b` by cross-multiplication. -/
def ble (a b : JSNumber) : Bool := a.num * (b.den : Int) ≤ b.num * (a.den : Int)

/-- Numeric equality `a == b` by cross-multiplication. -/
def beq (a b : JSNumber) : Bool := a.num * (b.den : Int) == b.num * (a.den : Int)

/-- `Math.min`. -/
def jsMin (a b : JSNumber) : JSNumber := if ble a b then a else b

/-- `Math.round`: round half toward positive infinity,
`round x = ⌊x + 1/2⌋ = (2·num + den) fdiv (2·den)`. -/
def jsRound (a : JSNumber) : Int := Int.fdiv (2 * a.num + (a.den : Int)) (2 * (a.den : Int))

end JSNumber

/-! ## Core data model (`src/types`, `analysis.worker.ts`) -/

/-- Issue severity, the union type `'high' | 'medium' | 'low'`. -/
inductive Severity where
  | high : Severity
  | medium : Severity
  | low : Severity
deriving Repr, DecidableEq, BEq

/-- Stored-issue status, the union type `'open' | 'resolved' | 'ignored'`
(`open` is a Lean keyword, hence the trailing underscore). -/
inductive Status where
  | open_ : Status
  | resolved : Status
  | ignored : Status
deriving Repr, DecidableEq, BEq

/-- The `location` field of an `Inconsistency` / `StoredIssue`. -/
structure IssueLocation where
  filePath : String
  lineNumber : Option Nat
  columnNumber : Option Nat
deriving Repr, DecidableEq

/-- An `Inconsistency` (the per-run issue record).  The `type` union is
modelled as a string since the fingerprint joins it into a string; the
`confidence`, `context` and `suggestion` fields are never read by the
functions verified here and are omitted. -/
structure Inconsistency where
  id : String
  type : String
  severity : Severity
  message : String
  location : IssueLocation
deriving Repr, DecidableEq

/-- The metadata of an `AnalysisResult` (analyzer shape).  Only
`totalFiles` and the optional `coveragePercentage` are read by
`calculateHealthScore`; the remaining counters are never consulted by
the embedded functions and are omitted. -/
structure AnalysisMetadata where
  totalFiles : Nat
  coveragePercentage : Option JSNumber
deriving Repr, DecidableEq

/-- `AnalysisResult { inconsistencies, metadata }`. -/
structure AnalysisResult where
  inconsistencies : List Inconsistency
  metadata : AnalysisMetadata
deriving Repr, DecidableEq

/-! ## Health scoring (`fingerprint.ts`, `calculateHealthScore`) -/

/-- The `severityPenalties` table of `fingerprint.ts`
(`{high: 10, medium: 5, low: 2}`). -/
def severityPenalties : Severity → Int
  | .high => 10
  | .medium => 5
  | .low => 2

/-- `calculateHealthScore` translated from `fingerprint.ts`: early return
`100` when `totalFiles === 0`; otherwise start from 100, subtract a
penalty per issue, subtract the density penalty when the density of
issues per 10 files exceeds 5, apply the coverage bonus/penalty, then
round and clamp to `[0, 100]`. -/
def calculateHealthScore (result : AnalysisResult) : Int :=
  if result.metadata.totalFiles = 0 then 100
  else
    let score0 : JSNumber := result.inconsistencies.foldl
      (fun s issue => s.sub (JSNumber.ofInt (severityPenalties issue.severity)))
      (JSNumber.ofInt 100)
    let density : JSNumber :=
      ((JSNumber.ofInt result.inconsistencies.length).div
        (JSNumber.ofInt result.metadata.totalFiles)).mul (JSNumber.ofInt 10)
    let score1 : JSNumber :=
      if (JSNumber.ofInt 5).blt density then
        score0.sub (JSNumber.jsMin (JSNumber.ofInt 20)
          ((density.sub (JSNumber.ofInt 5)).mul (JSNumber.ofInt 2)))
      else score0
    let score2 : JSNumber :=
      match result.metadata.coveragePercentage with
      | none => score1
      | some cov =>
        if (JSNumber.ofInt 80).ble cov then score1.add (JSNumber.ofInt 5)
        else if cov.blt (JSNumber.ofInt 50) then score1.sub (JSNumber.ofInt 10)
        else score1
    max 0 (min 100 (JSNumber.jsRound score2))

/-- Spec-side formula, following the claim's words: `issuesPer10Files =
issues/totalFiles*10`. -/
def issuesPer10Files (result : AnalysisResult) : JSNumber :=
  ((JSNumber.ofInt result.inconsistencies.length).div
    (JSNumber.ofInt result.metadata.totalFiles)).mul (JSNumber.ofInt 10)

/-- Spec-side formula: `densityPenalty = min(20, (issuesPer10Files−5)*2)`
applied only when `issuesPer10Files > 5`, else `0`. -/
def densityPenaltySpec (result : AnalysisResult) : JSNumber :=
  if (JSNumber.ofInt 5).blt (issuesPer10Files result) then
    JSNumber.jsMin (JSNumber.ofInt 20)
      (((issuesPer10Files result).sub (JSNumber.ofInt 5)).mul (JSNumber.ofInt 2))
  else JSNumber.ofInt 0

/-- Spec-side coverage adjustment, as the quantity subtracted in the
claim's formula `100 − Σpenalty − densityPenalty − coverageAdj`: the
claim says the adjustment "adds 5" when coverage ≥ 80 and "subtracts 10"
when coverage < 50, so the subtracted term is `−5`, `+10`, or `0`
(and `0` when coverage is absent). -/
def coverageAdjSpec (result : AnalysisResult) : Int :=
  match result.metadata.coveragePercentage with
  | none => 0
  | some cov =>
    if (JSNumber.ofInt 80).ble cov then -5
    else if cov.blt (JSNumber.ofInt 50) then 10
    else 0

/-- Spec-side health score, following the claim's words:
`clamp(100 − Σpenalty(severity) − densityPenalty − coverageAdj, 0, 100)`,
made an integer by JavaScript rounding. -/
def healthScoreSpec (result : AnalysisResult) : Int :=
  max 0 (min 100 (JSNumber.jsRound
    ((((JSNumber.ofInt 100).sub
        (JSNumber.ofInt ((result.inconsistencies.map
          (fun i => severityPenalties i.severity)).sum))).sub
      (densityPenaltySpec result)).sub
     (JSNumber.ofInt (coverageAdjSpec result)))))

/-- Folding penalty subtraction over the issue list equals subtracting
the summed penalties (the accumulator always has denominator 1). -/
theorem foldl_sub_penalties (l : List Inconsistency) (a : Int) :
    l.foldl (fun s issue => s.sub (JSNumber.ofInt (severityPenalties issue.severity)))
        (JSNumber.ofInt a)
      = JSNumber.ofInt (a - (l.map (fun i => severityPenalties i.severity)).sum) := by
  induction l generalizing a with
  | nil => simp [JSNumber.ofInt]
  | cons x xs ih =>
    simp only [List.foldl_cons, List.map_cons, List.sum_cons]
    have hstep : (JSNumber.ofInt a).sub (JSNumber.ofInt (severityPenalties x.severity))
        = JSNumber.ofInt (a - severityPenalties x.severity) := by
      simp [JSNumber.sub, JSNumber.ofInt]
    rw [hstep, ih]
    congr 1
    ring_nf

/-- Congruence of the round-then-clamp postlude under equal rational
scores. -/
theorem clamp_round_congr {a b : JSNumber} (h : a = b) :
    max 0 (min 100 a.jsRound) = max 0 (min 100 b.jsRound) := by rw [h]

/-- C2: for every analysis result with `totalFiles > 0`,
`calculateHealthScore` returns the integer
`clamp(100 − Σpenalty(severity) − densityPenalty − coverageAdj, 0, 100)`
with `penalty = {high:10, medium:5, low:2}`, the density penalty
`min(20, (issuesPer10Files−5)*2)` applied only when
`issuesPer10Files > 5`, and the coverage adjustment adding 5 when
coverage ≥ 80, subtracting 10 when coverage < 50 and 0 otherwise (and 0
when coverage is absent); and the returned score always lies in
`[0, 100]`. -/
theorem C2_health_score_formula (result : AnalysisResult) :
    (result.metadata.totalFiles ≠ 0 →
      calculateHealthScore result = healthScoreSpec result)
    ∧ 0 ≤ calculateHealthScore result ∧ calculateHealthScore result ≤ 100 := by
  refine ⟨?_, ?_, ?_⟩
  · intro h
    unfold calculateHealthScore healthScoreSpec densityPenaltySpec coverageAdjSpec
      issuesPer10Files
    rw [if_neg h, foldl_sub_penalties]
    simp only []
    set P : Int := (result.inconsistencies.map (fun i => severityPenalties i.severity)).sum
      with hP
    set D : JSNumber :=
      ((JSNumber.ofInt result.inconsistencies.length).div
        (JSNumber.ofInt result.metadata.totalFiles)).mul (JSNumber.ofInt 10) with hD
    by_cases hd : (JSNumber.ofInt 5).blt D = true
    · simp only [if_pos hd]
      set M : JSNumber :=
        JSNumber.jsMin (JSNumber.ofInt 20) ((D.sub (JSNumber.ofInt 5)).mul (JSNumber.ofInt 2))
        with hM
      cases hcov : result.metadata.coveragePercentage with
      | none =>
        simp only [hcov]
        apply clamp_round_congr
        simp only [JSNumber.sub, JSNumber.ofInt, JSNumber.mk.injEq]
        exact ⟨by ring_nf, by ring_nf⟩
      | some cov =>
        simp only [hcov]
        by_cases h80 : (JSNumber.ofInt 80).ble cov = true
        · simp only [if_pos h80]
          apply clamp_round_congr
          simp only [JSNumber.add, JSNumber.sub, JSNumber.ofInt, JSNumber.mk.injEq]
          exact ⟨by ring_nf, by ring_nf⟩
        · simp only [if_neg h80]
          by_cases h50 : cov.blt (JSNumber.ofInt 50) = true
          · simp only [if_pos h50]
            apply clamp_round_congr
            simp only [JSNumber.sub, JSNumber.ofInt, JSNumber.mk.injEq]
            exact ⟨by ring_nf, by ring_nf⟩
          · simp only [if_neg h50]
            apply clamp_round_congr
            simp only [JSNumber.sub, JSNumber.ofInt, JSNumber.mk.injEq]
            exact ⟨by ring_nf, by ring_nf⟩
    · simp only [if_neg hd]
      cases hcov : result.metadata.coveragePercentage with
      | none =>
        simp only [hcov]
        apply clamp_round_congr
        simp only [JSNumber.sub, JSNumber.ofInt, JSNumber.mk.injEq]
        exact ⟨by ring_nf, by ring_nf⟩
      | some cov =>
        simp only [hcov]
        by_cases h80 : (JSNumber.ofInt 80).ble cov = true
        · simp only [if_pos h80]
          apply clamp_round_congr
          simp only [JSNumber.add, JSNumber.sub, JSNumber.ofInt, JSNumber.mk.injEq]
          exact ⟨by ring_nf, by ring_nf⟩
        · simp only [if_neg h80]
          by_cases h50 : cov.blt (JSNumber.ofInt 50) = true
          · simp only [if_pos h50]
            apply clamp_round_congr
            simp only [JSNumber.sub, JSNumber.ofInt, JSNumber.mk.injEq]
            exact ⟨by ring_nf, by ring_nf⟩
          · simp only [if_neg h50]
            apply clamp_round_congr
            simp only [JSNumber.sub, JSNumber.ofInt, JSNumber.mk.injEq]
            exact ⟨by ring_nf, by ring_nf⟩
  · unfold calculateHealthScore
    split
    · norm_num
    · exact le_max_left 0 _
  · unfold calculateHealthScore
    split
    · norm_num
    · exact max_le (by norm_num) (min_le_left _ _)

/-- Witness for C2 at a concrete result: 4 files, one high and one low
issue, coverage 85% — the theorem applies and the computed score is 93. -/
theorem C2_health_score_formula_witness :
    calculateHealthScore
        ⟨[⟨"i1", "broken-link", Severity.high, "m1", ⟨"a.md", none, none⟩⟩,
          ⟨"i2", "todo-marker", Severity.low, "m2", ⟨"b.md", none, none⟩⟩],
         ⟨4, some (JSNumber.ofInt 85)⟩⟩
      = healthScoreSpec
        ⟨[⟨"i1", "broken-link", Severity.high, "m1", ⟨"a.md", none, none⟩⟩,
          ⟨"i2", "todo-marker", Severity.low, "m2", ⟨"b.md", none, none⟩⟩],
         ⟨4, some (JSNumber.ofInt 85)⟩⟩
    ∧ calculateHealthScore
        ⟨[⟨"i1", "broken-link", Severity.high, "m1", ⟨"a.md", none, none⟩⟩,
          ⟨"i2", "todo-marker", Severity.low, "m2", ⟨"b.md", none, none⟩⟩],
         ⟨4, some (JSNumber.ofInt 85)⟩⟩ = 93 :=
  ⟨(C2_health_score_formula _).1 (by decide), by decide⟩

/-- C9: when the metadata records `totalFiles = 0`,
`calculateHealthScore` returns exactly 100 through the early guard,
before any penalty, density, or coverage computation (so the density
division by `totalFiles` is never performed on zero). -/
theorem C9_zero_files_score (result : AnalysisResult)
    (h : result.metadata.totalFiles = 0) : calculateHealthScore result = 100 := by
  unfold calculateHealthScore
  rw [if_pos h]

/-- Witness for C9: a result with zero files but a high issue and bad
coverage still scores 100. -/
theorem C9_zero_files_score_witness :
    calculateHealthScore
        ⟨[⟨"i1", "broken-link", Severity.high, "m1", ⟨"a.md", none, none⟩⟩],
         ⟨0, some (JSNumber.ofInt 10)⟩⟩ = 100 :=
  C9_zero_files_score _ (by decide)

/-! ## Fingerprint engine (`fingerprint.ts`, `normalizeMessage`,
`generateIssueFingerprint`)

Each JavaScript `message.replace(regex, ...)` pass is embedded as a
left-to-right scanner: at each position a match is attempted; on success
the replacement is emitted and scanning resumes after the consumed
characters (non-overlapping matches, as with a `g`-flagged regex); the
previous character of the original string is tracked for `\b` word
boundaries. -/

/-- JavaScript `\w`: ASCII letters, digits, underscore. -/
def isWordChar (c : Char) : Bool := c.isAlpha || c.isDigit || c = '_'

/-- JavaScript `\s` (ASCII part: space, tab, newline, carriage return,
vertical tab, form feed). -/
def isSpaceChar (c : Char) : Bool :=
  c = ' ' || c = '\t' || c = '\n' || c = '\r' || c = '\x0b' || c = '\x0c'

/-- Word-boundary test before a match whose first character is a word
character: the previous character must be absent or not a word
character. -/
def prevIsWord : Option Char → Bool
  | some p => isWordChar p
  | none => false

/-- Case-insensitive literal match; returns the rest of the input on
success. -/
def matchCI : List Char → List Char → Option (List Char)
  | [], s => some s
  | _ :: _, [] => none
  | p :: ps, c :: cs => if c.toLower = p.toLower then matchCI ps cs else none

/-- Length of the maximal prefix satisfying `p` (a greedy character-class
quantifier). -/
def countWhile (p : Char → Bool) : List Char → Nat
  | [] => 0
  | c :: cs => if p c then countWhile p cs + 1 else 0

/-- One global-regex replacement pass.  `matcher prev s` attempts a match
at the start of `s` (with `prev` the preceding original character) and
returns the number of consumed characters (always ≥ 1) and the
replacement text. -/
def replaceScan (matcher : Option Char → List Char → Option (Nat × List Char)) :
    Nat → Option Char → List Char → List Char
  | 0, _, _ => []
  | _ + 1, _, [] => []
  | fuel + 1, prev, c :: rest =>
    match matcher prev (c :: rest) with
    | some (n, repl) =>
      repl ++ replaceScan matcher fuel ((c :: rest).take n).getLast? ((c :: rest).drop n)
    | none => c :: replaceScan matcher fuel (some c) rest

/-- Run a replacement pass over a whole string (the fuel bound
`length + 1` suffices since every step consumes at least one
character). -/
def runPass (matcher : Option Char → List Char → Option (Nat × List Char))
    (s : List Char) : List Char :=
  replaceScan matcher (s.length + 1) none s

/-- Matcher for `/\bline\s*\d+/gi` with replacement `'line N'`. -/
def matchLineNum (prev : Option Char) (s : List Char) : Option (Nat × List Char) :=
  if prevIsWord prev then none
  else
    match matchCI ['l', 'i', 'n', 'e'] s with
    | none => none
    | some rest1 =>
      let ws := countWhile isSpaceChar rest1
      let rest2 := rest1.drop ws
      let ds := countWhile Char.isDigit rest2
      if ds = 0 then none
      else some (4 + ws + ds, ['l', 'i', 'n', 'e', ' ', 'N'])

/-- Matcher for `/\bL\d+/g` (case-sensitive) with replacement `'LN'`. -/
def matchLNum (prev : Option Char) (s : List Char) : Option (Nat × List Char) :=
  if prevIsWord prev then none
  else
    match s with
    | 'L' :: rest =>
      let ds := countWhile Char.isDigit rest
      if ds = 0 then none else some (1 + ds, ['L', 'N'])
    | _ => none

/-- Matcher for `/:\d+:\d+/g` with replacement `':N:N'`. -/
def matchColonNums (_prev : Option Char) (s : List Char) : Option (Nat × List Char) :=
  match s with
  | ':' :: rest =>
    let d1 := countWhile Char.isDigit rest
    if d1 = 0 then none
    else
      match rest.drop d1 with
      | ':' :: rest2 =>
        let d2 := countWhile Char.isDigit rest2
        if d2 = 0 then none else some (1 + d1 + 1 + d2, [':', 'N', ':', 'N'])
      | _ => none
  | _ => none

/-- Tail of the `col(umn)?` matcher: `\s*\d+` after the already consumed
prefix of length `consumed`. -/
def colTail (consumed : Nat) (rest : List Char) : Option (Nat × List Char) :=
  let ws := countWhile isSpaceChar rest
  let rest2 := rest.drop ws
  let ds := countWhile Char.isDigit rest2
  if ds = 0 then none else some (consumed + ws + ds, ['c', 'o', 'l', ' ', 'N'])

/-- Matcher for `/\bcol(umn)?\s*\d+/gi` with replacement `'col N'`; the
optional `(umn)` group is greedy with backtracking. -/
def matchColNum (prev : Option Char) (s : List Char) : Option (Nat × List Char) :=
  if prevIsWord prev then none
  else
    match matchCI ['c', 'o', 'l'] s with
    | none => none
    | some rest1 =>
      match matchCI ['u', 'm', 'n'] rest1 with
      | some rest2 =>
        match colTail 6 rest2 with
        | some r => some r
        | none => colTail 3 rest1
      | none => colTail 3 rest1

/-- The three quote characters of `/(['"`])([^'"`]+)(['"`])/g`
(apostrophe, double quote, backtick). -/
def isQuoteChar (c : Char) : Bool :=
  c = Char.ofNat 39 || c = Char.ofNat 34 || c = Char.ofNat 96

/-- Matcher for the quoted-substring pattern, replacement `'$1PATH$3'`:
an opening quote, a nonempty run of non-quote characters, and any
closing quote (both quotes are preserved). -/
def matchQuoted (_prev : Option Char) (s : List Char) : Option (Nat × List Char) :=
  match s with
  | q1 :: rest =>
    if isQuoteChar q1 then
      let k := countWhile (fun c => !isQuoteChar c) rest
      if k = 0 then none
      else
        match rest.drop k with
        | q3 :: _ => some (1 + k + 1, [q1, 'P', 'A', 'T', 'H', q3])
        | [] => none
    else none
  | [] => none

/-- One alternative of `(files?|links?|issues?)` (case-insensitive, the
trailing `s` greedy): returns the number of characters matched. -/
def matchAltOne (word : List Char) (s : List Char) : Option Nat :=
  match matchCI word s with
  | none => none
  | some rest =>
    match rest with
    | c :: _ => if c.toLower = 's' then some (word.length + 1) else some word.length
    | [] => some word.length

/-- The ordered alternation `(files?|links?|issues?)`; returns the
consumed length and the captured original text. -/
def matchAltWord (s : List Char) : Option (Nat × List Char) :=
  match matchAltOne ['f', 'i', 'l', 'e'] s with
  | some n => some (n, s.take n)
  | none =>
    match matchAltOne ['l', 'i', 'n', 'k'] s with
    | some n => some (n, s.take n)
    | none =>
      match matchAltOne ['i', 's', 's', 'u', 'e'] s with
      | some n => some (n, s.take n)
      | none => none

/-- Matcher for `/\b\d+\s+(files?|links?|issues?)/gi` with replacement
`'N $1'` (the captured word keeps its original spelling). -/
def matchCountPhrase (prev : Option Char) (s : List Char) : Option (Nat × List Char) :=
  if prevIsWord prev then none
  else
    let ds := countWhile Char.isDigit s
    if ds = 0 then none
    else
      let rest1 := s.drop ds
      let ws := countWhile isSpaceChar rest1
      if ws = 0 then none
      else
        match matchAltWord (rest1.drop ws) with
        | none => none
        | some (wl, captured) => some (ds + ws + wl, 'N' :: ' ' :: captured)

/-- The `/\s+/g → ' '` pass: collapse every whitespace run to a single
space (structural recursion on the input with an in-run flag). -/
def collapseSpacesAux : Bool → List Char → List Char
  | _, [] => []
  | inRun, c :: rest =>
    if isSpaceChar c then
      if inRun then collapseSpacesAux true rest
      else ' ' :: collapseSpacesAux true rest
    else c :: collapseSpacesAux false rest

/-- Collapse whitespace runs (`.replace(/\s+/g, ' ')`). -/
def collapseSpaces (s : List Char) : List Char := collapseSpacesAux false s

/-- JavaScript `String.prototype.trim`: drop whitespace at both ends. -/
def jsTrim (s : List Char) : List Char :=
  ((s.dropWhile isSpaceChar).reverse.dropWhile isSpaceChar).reverse

/-- `normalizeMessage` from `fingerprint.ts`: the six replacement passes
in source order, then whitespace collapsing, trimming and
lower-casing. -/
def normalizeMessage (message : String) : String :=
  String.mk
    ((jsTrim (collapseSpaces
      (runPass matchCountPhrase
        (runPass matchQuoted
          (runPass matchColNum
            (runPass matchColonNums
              (runPass matchLNum
                (runPass matchLineNum message.data)))))))).map Char.toLower)

/-- The pre-hash fingerprint source string
`[type, filePath, normalizedMessage].flatten('::')`. -/
def fingerprintSource (issue : Inconsistency) : String :=
  issue.type ++ "::" ++ issue.location.filePath ++ "::" ++ normalizeMessage issue.message

/-- `generateIssueFingerprint`, with the SHA-256 digest abstracted as the
parameter `hash` (the source awaits `sha256` and truncates the hex
digest to its first 16 characters; only determinism and collision
resistance of the digest are relied upon). -/
def generateIssueFingerprint (hash : String → String) (issue : Inconsistency) : String :=
  (hash (fingerprintSource issue)).take 16

/-- First member of a substantively different message pair. -/
def issueSubstA : Inconsistency :=
  ⟨"s1", "todo-marker", Severity.low, "Heading anchor duplicated", ⟨"docs/a.md", none, none⟩⟩

/-- Second member of a substantively different message pair (same type
and path, different message substance). -/
def issueSubstB : Inconsistency :=
  ⟨"s2", "todo-marker", Severity.low, "Image alt text empty", ⟨"docs/a.md", none, none⟩⟩

/-- C6: issues with the same type and location path whose messages
normalize identically — in particular messages differing only in
line-number references, column references, quoted path-like substrings,
or count phrases, as the five concrete pairs demonstrate — receive the
same fingerprint; and for a pair of issues whose messages differ in
substance the fingerprints differ, provided the truncated digest does
not collide on the two fingerprint sources. -/
theorem C6_fingerprint_stability (hash : String → String)
    (hcoll : (hash (fingerprintSource issueSubstA)).take 16
        = (hash (fingerprintSource issueSubstB)).take 16 →
      fingerprintSource issueSubstA = fingerprintSource issueSubstB) :
    (∀ i1 i2 : Inconsistency, i1.type = i2.type →
      i1.location.filePath = i2.location.filePath →
      normalizeMessage i1.message = normalizeMessage i2.message →
      generateIssueFingerprint hash i1 = generateIssueFingerprint hash i2)
    ∧ normalizeMessage "Broken link found at line 42"
        = normalizeMessage "Broken link found at LINE 7"
    ∧ normalizeMessage "Parse error at :12:5 near token"
        = normalizeMessage "Parse error at :3:44 near token"
    ∧ normalizeMessage "Parse error near column 7"
        = normalizeMessage "Parse error near col 190"
    ∧ normalizeMessage "File 'docs/setup.md' is missing"
        = normalizeMessage "File 'guide/intro.md' is missing"
    ∧ normalizeMessage "Found 3 files without docs"
        = normalizeMessage "Found 12 files without docs"
    ∧ generateIssueFingerprint hash issueSubstA
        ≠ generateIssueFingerprint hash issueSubstB := by
  refine ⟨?_, by decide, by decide, by decide, by decide, by decide, ?_⟩
  · intro i1 i2 ht hp hm
    unfold generateIssueFingerprint fingerprintSource
    rw [ht, hp, hm]
  · intro heq
    exact absurd (hcoll heq) (by decide)

/-- Witness for C6 with a concrete injective-on-these-inputs digest
(string reversal): the substantively different pair fingerprints
differently. -/
theorem C6_fingerprint_stability_witness :
    generateIssueFingerprint (fun s => String.mk s.data.reverse) issueSubstA
      ≠ generateIssueFingerprint (fun s => String.mk s.data.reverse) issueSubstB :=
  (C6_fingerprint_stability (fun s => String.mk s.data.reverse)
    (by decide)).2.2.2.2.2.2

/-! ## Delta engine data model (`delta.ts`, `types`) -/

/-- A `StoredIssue` record (persisted issue bound to a fingerprint,
status and first-seen timestamp). -/
structure StoredIssue where
  id : String
  analysisId : String
  projectId : String
  fingerprint : String
  type : String
  severity : Severity
  message : String
  location : IssueLocation
  firstSeenAt : String
  status : Status
deriving Repr, DecidableEq

/-- The `DeltaClassification` union type of `delta.ts`. -/
inductive DeltaClassification where
  | new : DeltaClassification
  | persisting : DeltaClassification
  | resolved : DeltaClassification
  | reintroduced : DeltaClassification
  | ignored : DeltaClassification
deriving Repr, DecidableEq, BEq

/-- An `IssueDelta` entry of the classified issue list. -/
structure IssueDelta where
  fingerprint : String
  classification : DeltaClassification
  severity : Severity
  issue : Option Inconsistency
  previousIssue : Option StoredIssue
deriving Repr, DecidableEq

/-- A `{high, medium, low}` counter triple. -/
structure SeverityCounts where
  high : Nat
  medium : Nat
  low : Nat
deriving Repr, DecidableEq

/-- Increment the counter of one severity. -/
def SeverityCounts.bump (c : SeverityCounts) : Severity → SeverityCounts
  | .high => { c with high := c.high + 1 }
  | .medium => { c with medium := c.medium + 1 }
  | .low => { c with low := c.low + 1 }

/-- The `healthAttribution` record of a `DeltaSummary`. -/
structure HealthAttribution where
  fromNewIssues : Int
  fromResolvedIssues : Int
  fromSeverityMix : Int
deriving Repr, DecidableEq

/-- The `DeltaSummary` produced by `computeDelta`. -/
structure DeltaSummary where
  newCount : Nat
  persistingCount : Nat
  resolvedCount : Nat
  reintroducedCount : Nat
  ignoredCount : Nat
  newBySeverity : SeverityCounts
  reintroducedBySeverity : SeverityCounts
  previousHealthScore : Option Int
  currentHealthScore : Int
  healthDelta : Int
  healthAttribution : HealthAttribution
  issues : List IssueDelta
  hasRegressions : Bool
  isFirstRun : Bool
deriving Repr, DecidableEq

/-- The `SEVERITY_PENALTIES` table of `delta.ts`
(`{high: 10, medium: 5, low: 2}`, matching `fingerprint.ts`). -/
def SEVERITY_PENALTIES : Severity → Int
  | .high => 10
  | .medium => 5
  | .low => 2

/-- The previous persisted run as consulted by `computeDelta`: its stored
health score and its stored issues (fetched by `analysisId`). -/
structure PreviousRun where
  healthScore : Int
  issues : List StoredIssue
deriving Repr, DecidableEq

/-! ## JavaScript `Map` model: association list, insertion-order
iteration, `set` overwrites in place. -/

/-- `Map.prototype.set`: overwrite in place when the key exists
(keeping its insertion position), else append. -/
def mapSet {α : Type} (m : List (String × α)) (k : String) (v : α) : List (String × α) :=
  if m.any (fun p => p.1 == k) then m.map (fun p => if p.1 == k then (k, v) else p)
  else m ++ [(k, v)]

/-- `Map.prototype.has` / `Set.prototype.has`. -/
def mapHas {α : Type} (m : List (String × α)) (k : String) : Bool :=
  m.any (fun p => p.1 == k)

/-- `Map.prototype.get` (`none` when absent). -/
def mapGet {α : Type} (m : List (String × α)) (k : String) : Option α :=
  (m.find? (fun p => p.1 == k)).map (fun p => p.2)

/-- Build a map from a list, `m.set(key x, x)` per element in order. -/
def buildMap {α : Type} (key : α → String) (l : List α) : List (String × α) :=
  l.foldl (fun m x => mapSet m (key x) x) []

/-- A pair in the map means its key tests present. -/
theorem mapHas_of_mem {α : Type} {m : List (String × α)} {p : String × α} (h : p ∈ m) :
    mapHas m p.1 = true := by
  unfold mapHas
  rw [List.any_eq_true]
  exact ⟨p, h, by simp⟩

/-- Key presence after `set`: the old keys plus the inserted key. -/
theorem mapHas_mapSet {α : Type} (m : List (String × α)) (k k' : String) (v : α) :
    mapHas (mapSet m k v) k' = (mapHas m k' || (k' == k)) := by
  unfold mapHas mapSet
  split
  next hex =>
    have hkeys : ∀ (ms : List (String × α)),
        (ms.map (fun p => if p.1 == k then (k, v) else p)).any (fun p => p.1 == k')
          = ms.any (fun p => p.1 == k') := by
      intro ms
      induction ms with
      | nil => rfl
      | cons p ps ih =>
        simp only [List.map_cons, List.any_cons, ih]
        by_cases hpk : p.1 == k
        · have hpk' : p.1 = k := eq_of_beq hpk
          simp [hpk, hpk']
        · simp [hpk]
    rw [hkeys]
    by_cases hkk : (k' == k) = true
    · have hk' : k' = k := eq_of_beq hkk
      subst hk'
      simp [hex]
    · simp [hkk]
  next hex =>
    simp only [List.any_append, List.any_cons, List.any_nil, Bool.or_false]
    congr 1
    rw [Bool.eq_iff_iff]
    constructor
    · intro h
      exact beq_of_eq (eq_of_beq h).symm
    · intro h
      exact beq_of_eq (eq_of_beq h).symm

/-- Key presence in a built map: some element has that key. -/
theorem mapHas_buildMap {α : Type} (key : α → String) (l : List α) (k : String) :
    mapHas (buildMap key l) k = l.any (fun x => k == key x) := by
  unfold buildMap
  suffices h : ∀ (init : List (String × α)),
      mapHas (l.foldl (fun m x => mapSet m (key x) x) init) k
        = (mapHas init k || l.any (fun x => k == key x)) by
    have := h []
    simpa [mapHas] using this
  induction l with
  | nil => intro init; simp
  | cons x xs ih =>
    intro init
    simp only [List.foldl_cons, List.any_cons]
    rw [ih, mapHas_mapSet, Bool.or_assoc]

/-- Keys of a map stay unique under `set`. -/
theorem keysNodup_mapSet {α : Type} {m : List (String × α)} {k : String} {v : α}
    (h : (m.map (fun p => p.1)).Nodup) : ((mapSet m k v).map (fun p => p.1)).Nodup := by
  unfold mapSet
  split
  next hex =>
    have hkeys : ∀ (ms : List (String × α)),
        (ms.map (fun p => if p.1 == k then (k, v) else p)).map (fun p => p.1)
          = ms.map (fun p => p.1) := by
      intro ms
      induction ms with
      | nil => rfl
      | cons p ps ih =>
        simp only [List.map_cons, ih, List.cons.injEq, and_true]
        by_cases hpk : (p.1 == k) = true
        · rw [if_pos hpk]
          exact (eq_of_beq hpk).symm
        · rw [if_neg hpk]
    rw [hkeys]
    exact h
  next hex =>
    rw [List.map_append]
    refine List.Nodup.append h (List.nodup_singleton k) ?_
    intro a ha hb
    simp only [List.map_cons, List.map_nil, List.mem_singleton] at hb
    subst hb
    apply hex
    rw [List.any_eq_true]
    rw [List.mem_map] at ha
    obtain ⟨p, hp, hpk⟩ := ha
    exact ⟨p, hp, by simp [hpk]⟩

/-- Keys of a built map are unique. -/
theorem keysNodup_buildMap {α : Type} (key : α → String) (l : List α) :
    ((buildMap key l).map (fun p => p.1)).Nodup := by
  unfold buildMap
  suffices h : ∀ (init : List (String × α)), (init.map (fun p => p.1)).Nodup →
      ((l.foldl (fun m x => mapSet m (key x) x) init).map (fun p => p.1)).Nodup by
    exact h [] (by simp)
  induction l with
  | nil => intro init hinit; simpa using hinit
  | cons x xs ih =>
    intro init hinit
    simp only [List.foldl_cons]
    exact ih _ (keysNodup_mapSet hinit)

/-- A present key has a pair in the map. -/
theorem exists_of_mapHas {α : Type} {m : List (String × α)} {k : String}
    (h : mapHas m k = true) : ∃ v, (k, v) ∈ m := by
  unfold mapHas at h
  rw [List.any_eq_true] at h
  obtain ⟨p, hp, hk⟩ := h
  have hk' : p.1 = k := eq_of_beq hk
  exact ⟨p.2, by rw [← hk']; exact hp⟩

/-- Key presence is membership in the key list. -/
theorem mapHas_iff_mem_keys {α : Type} (m : List (String × α)) (k : String) :
    mapHas m k = true ↔ k ∈ m.map (fun p => p.1) := by
  unfold mapHas
  rw [List.any_eq_true]
  simp only [List.mem_map, beq_iff_eq]

/-- Every pair of a built map has the key of one of the built elements. -/
theorem mem_buildMap_key {α : Type} {key : α → String} {l : List α} {p : String × α}
    (h : p ∈ buildMap key l) : ∃ x ∈ l, key x = p.1 := by
  have hhas := mapHas_of_mem h
  rw [mapHas_buildMap, List.any_eq_true] at hhas
  obtain ⟨x, hx, hk⟩ := hhas
  exact ⟨x, hx, (eq_of_beq hk).symm⟩

/-! ## Delta engine (`delta.ts`, `computeDelta`)

The asynchronous IndexedDB lookups of `computeDelta` are passed in as
explicit inputs: the fingerprint function (`generateIssueFingerprint`
with its digest), the previous persisted run (`null` on a first run),
the ever-resolved fingerprint set and the per-fingerprint status map.
The counting loop over `issues` with a `switch` and mutable counters is
modelled by filters and folds over the same list. -/

/-- The `currentFingerprints` map: fingerprint each current inconsistency
and `set` it into a map in order. -/
def currentFingerprintMap (fp : Inconsistency → String) (result : AnalysisResult) :
    List (String × Inconsistency) :=
  buildMap fp result.inconsistencies

/-- The `previousIssueMap`: previous stored issues keyed by
fingerprint. -/
def previousIssueMap (previousIssues : List StoredIssue) : List (String × StoredIssue) :=
  buildMap (fun s => s.fingerprint) previousIssues

/-- The classification `if`-chain of `computeDelta` for a fingerprint
present in the current run. -/
def classifyCurrent (inPrevious : Bool) (currentStatus : Status) (wasEverResolved : Bool) :
    DeltaClassification :=
  if currentStatus == Status.ignored then DeltaClassification.ignored
  else if !inPrevious && wasEverResolved then DeltaClassification.reintroduced
  else if !inPrevious then DeltaClassification.new
  else DeltaClassification.persisting

/-- `computeDelta` translated from `delta.ts`. -/
def computeDelta (fp : Inconsistency → String) (previous : Option PreviousRun)
    (everResolvedFingerprints : List String) (currentStatusMap : List (String × Status))
    (currentResult : AnalysisResult) : DeltaSummary :=
  let previousIssues : List StoredIssue :=
    match previous with
    | some p => p.issues
    | none => []
  let previousFingerprints : List String := previousIssues.map (fun s => s.fingerprint)
  let prevMap := previousIssueMap previousIssues
  let currentFingerprints := currentFingerprintMap fp currentResult
  let currentDeltas : List IssueDelta := currentFingerprints.map (fun p =>
    { fingerprint := p.1
      classification := classifyCurrent (previousFingerprints.contains p.1)
        ((mapGet currentStatusMap p.1).getD Status.open_)
        (everResolvedFingerprints.contains p.1)
      severity := p.2.severity
      issue := some p.2
      previousIssue := mapGet prevMap p.1 })
  let resolvedDeltas : List IssueDelta :=
    (prevMap.filter (fun q => !(mapHas currentFingerprints q.1))).map (fun q =>
      { fingerprint := q.1
        classification := DeltaClassification.resolved
        severity := q.2.severity
        issue := none
        previousIssue := some q.2 })
  let issues := currentDeltas ++ resolvedDeltas
  let newBySeverity : SeverityCounts :=
    (issues.filter (fun d => d.classification == DeltaClassification.new)).foldl
      (fun c d => c.bump d.severity) ⟨0, 0, 0⟩
  let reintroducedBySeverity : SeverityCounts :=
    (issues.filter (fun d => d.classification == DeltaClassification.reintroduced)).foldl
      (fun c d => c.bump d.severity) ⟨0, 0, 0⟩
  let reintroducedCount :=
    (issues.filter (fun d => d.classification == DeltaClassification.reintroduced)).length
  let currentHealthScore := calculateHealthScore currentResult
  let previousHealthScore : Option Int := previous.map (fun p => p.healthScore)
  let healthDelta : Int :=
    match previousHealthScore with
    | some p => currentHealthScore - p
    | none => 0
  let fromNewIssues : Int := issues.foldl
    (fun a d =>
      if d.classification == DeltaClassification.new
          || d.classification == DeltaClassification.reintroduced then
        a - SEVERITY_PENALTIES d.severity
      else a) 0
  let fromResolvedIssues : Int := issues.foldl
    (fun a d =>
      if d.classification == DeltaClassification.resolved then
        a + SEVERITY_PENALTIES d.severity
      else a) 0
  { newCount := (issues.filter (fun d => d.classification == DeltaClassification.new)).length
    persistingCount :=
      (issues.filter (fun d => d.classification == DeltaClassification.persisting)).length
    resolvedCount :=
      (issues.filter (fun d => d.classification == DeltaClassification.resolved)).length
    reintroducedCount := reintroducedCount
    ignoredCount :=
      (issues.filter (fun d => d.classification == DeltaClassification.ignored)).length
    newBySeverity := newBySeverity
    reintroducedBySeverity := reintroducedBySeverity
    previousHealthScore := previousHealthScore
    currentHealthScore := currentHealthScore
    healthDelta := healthDelta
    healthAttribution :=
      { fromNewIssues := fromNewIssues
        fromResolvedIssues := fromResolvedIssues
        fromSeverityMix := healthDelta - fromNewIssues - fromResolvedIssues }
    issues := issues
    hasRegressions := newBySeverity.high > 0 || reintroducedCount > 0
    isFirstRun := previous.isNone }

/-- The claim's prioritized classification rules (first matching rule
wins); `none` when the fingerprint is in neither run. -/
def specClassify (presentNow inPrevious : Bool) (currentStatus : Status)
    (everResolved : Bool) : Option DeltaClassification :=
  if presentNow && currentStatus == Status.ignored then some DeltaClassification.ignored
  else if presentNow && !inPrevious && everResolved then some DeltaClassification.reintroduced
  else if presentNow && !inPrevious then some DeltaClassification.new
  else if presentNow && inPrevious then some DeltaClassification.persisting
  else if !presentNow && inPrevious then some DeltaClassification.resolved
  else none

/-- Subtracting folds equal subtracting the filtered penalty sum. -/
theorem foldl_sub_if (p : IssueDelta → Bool) (l : List IssueDelta) (a : Int) :
    l.foldl (fun acc d => if p d then acc - SEVERITY_PENALTIES d.severity else acc) a
      = a - ((l.filter p).map (fun d => SEVERITY_PENALTIES d.severity)).sum := by
  induction l generalizing a with
  | nil => simp
  | cons x xs ih =>
    by_cases hx : p x = true
    · simp only [List.foldl_cons, List.filter_cons, hx, if_true, List.map_cons, List.sum_cons]
      rw [ih]
      omega
    · simp only [List.foldl_cons, List.filter_cons, hx, if_false, Bool.false_eq_true]
      rw [ih]

/-- Adding folds equal adding the filtered penalty sum. -/
theorem foldl_add_if (p : IssueDelta → Bool) (l : List IssueDelta) (a : Int) :
    l.foldl (fun acc d => if p d then acc + SEVERITY_PENALTIES d.severity else acc) a
      = a + ((l.filter p).map (fun d => SEVERITY_PENALTIES d.severity)).sum := by
  induction l generalizing a with
  | nil => simp
  | cons x xs ih =>
    by_cases hx : p x = true
    · simp only [List.foldl_cons, List.filter_cons, hx, if_true, List.map_cons, List.sum_cons]
      rw [ih]
      omega
    · simp only [List.foldl_cons, List.filter_cons, hx, if_false, Bool.false_eq_true]
      rw [ih]

/-- C1: with a previous run, the three attribution terms sum exactly to
`healthDelta`; `fromNewIssues` is the negated penalty sum over issues
classified new or reintroduced, `fromResolvedIssues` is the penalty sum
over issues classified resolved, and
`healthDelta = currentHealthScore − previousHealthScore`. -/
theorem C1_attribution_closure (fp : Inconsistency → String) (prev : PreviousRun)
    (everResolvedFingerprints : List String) (currentStatusMap : List (String × Status))
    (currentResult : AnalysisResult) :
    (computeDelta fp (some prev) everResolvedFingerprints currentStatusMap
          currentResult).healthAttribution.fromNewIssues
        + (computeDelta fp (some prev) everResolvedFingerprints currentStatusMap
          currentResult).healthAttribution.fromResolvedIssues
        + (computeDelta fp (some prev) everResolvedFingerprints currentStatusMap
          currentResult).healthAttribution.fromSeverityMix
      = (computeDelta fp (some prev) everResolvedFingerprints currentStatusMap
          currentResult).healthDelta
    ∧ (computeDelta fp (some prev) everResolvedFingerprints currentStatusMap
          currentResult).healthDelta
        = (computeDelta fp (some prev) everResolvedFingerprints currentStatusMap
            currentResult).currentHealthScore - prev.healthScore
    ∧ (computeDelta fp (some prev) everResolvedFingerprints currentStatusMap
          currentResult).currentHealthScore = calculateHealthScore currentResult
    ∧ (computeDelta fp (some prev) everResolvedFingerprints currentStatusMap
          currentResult).healthAttribution.fromNewIssues
        = -((((computeDelta fp (some prev) everResolvedFingerprints currentStatusMap
              currentResult).issues.filter (fun d =>
                d.classification == DeltaClassification.new
                  || d.classification == DeltaClassification.reintroduced)).map
            (fun d => SEVERITY_PENALTIES d.severity)).sum)
    ∧ (computeDelta fp (some prev) everResolvedFingerprints currentStatusMap
          currentResult).healthAttribution.fromResolvedIssues
        = (((computeDelta fp (some prev) everResolvedFingerprints currentStatusMap
              currentResult).issues.filter (fun d =>
                d.classification == DeltaClassification.resolved)).map
            (fun d => SEVERITY_PENALTIES d.severity)).sum := by
  simp only [computeDelta, Option.map_some', Option.isNone_some]
  rw [foldl_sub_if, foldl_add_if]
  refine ⟨by omega, trivial, trivial, by omega, by omega⟩

/-- The code's current-issue classification chain agrees with the
claim's rules when the fingerprint is present now. -/
theorem classifyCurrent_spec (b : Bool) (s : Status) (e : Bool) :
    some (classifyCurrent b s e) = specClassify true b s e := by
  cases b <;> cases s <;> cases e <;> rfl

/-- The claim's rules classify an absent-now, present-before fingerprint
as resolved whatever its status and resolution history. -/
theorem specClassify_resolved (s : Status) (e : Bool) :
    specClassify false true s e = some DeltaClassification.resolved := by
  cases s <;> cases e <;> rfl

/-- A fingerprint that is not in the previous run and was never resolved
is classified new by the code's chain, unless currently ignored. -/
theorem classifyCurrent_new (s : Status) (hs : s ≠ Status.ignored) :
    classifyCurrent false s false = DeltaClassification.new := by
  cases s
  · rfl
  · rfl
  · exact absurd rfl hs

/-- Without a previous occurrence the code's chain never yields
persisting (and it never yields resolved at all). -/
theorem classifyCurrent_not_prev (s : Status) (e : Bool) :
    classifyCurrent false s e ≠ DeltaClassification.persisting
    ∧ classifyCurrent false s e ≠ DeltaClassification.resolved := by
  cases s <;> cases e <;> exact ⟨by decide, by decide⟩

/-- C3: with a previous run, every entry of the classified issue list is
classified by the first matching rule in priority order — (1) present
now and currently ignored → ignored; (2) present now, absent previously,
ever resolved → reintroduced; (3) present now, absent previously → new;
(4) present now and previously → persisting; (5) absent now, present
previously → resolved — and in particular a fingerprint that is present
now, absent previously and never marked resolved is classified new (not
reintroduced) whenever its current status is not ignored. -/
theorem C3_classification_priority (fp : Inconsistency → String) (prev : PreviousRun)
    (everResolvedFingerprints : List String) (currentStatusMap : List (String × Status))
    (currentResult : AnalysisResult) :
    ∀ d ∈ (computeDelta fp (some prev) everResolvedFingerprints currentStatusMap
        currentResult).issues,
      some d.classification
          = specClassify (mapHas (currentFingerprintMap fp currentResult) d.fingerprint)
              ((prev.issues.map (fun s => s.fingerprint)).contains d.fingerprint)
              ((mapGet currentStatusMap d.fingerprint).getD Status.open_)
              (everResolvedFingerprints.contains d.fingerprint)
        ∧ (mapHas (currentFingerprintMap fp currentResult) d.fingerprint = true →
            (prev.issues.map (fun s => s.fingerprint)).contains d.fingerprint = false →
            everResolvedFingerprints.contains d.fingerprint = false →
            (mapGet currentStatusMap d.fingerprint).getD Status.open_ ≠ Status.ignored →
            d.classification = DeltaClassification.new) := by
  intro d hd
  simp only [computeDelta, List.mem_append, List.mem_map, List.mem_filter] at hd
  rcases hd with ⟨p, hp, rfl⟩ | ⟨q, ⟨hq, hqc⟩, rfl⟩
  · dsimp only
    have hhas : mapHas (currentFingerprintMap fp currentResult) p.1 = true :=
      mapHas_of_mem hp
    rw [hhas]
    refine ⟨classifyCurrent_spec _ _ _, ?_⟩
    intro _ h2 h3 h4
    rw [h2, h3]
    exact classifyCurrent_new _ h4
  · dsimp only
    have hnot : mapHas (currentFingerprintMap fp currentResult) q.1 = false := by
      simpa using hqc
    have hkey := mem_buildMap_key hq
    obtain ⟨x, hx, hxk⟩ := hkey
    have hcontains : (prev.issues.map (fun s => s.fingerprint)).contains q.1 = true :=
      List.elem_iff.mpr (List.mem_map.mpr ⟨x, hx, hxk⟩)
    rw [hnot, hcontains]
    refine ⟨(specClassify_resolved _ _).symm, ?_⟩
    intro h1 _ _ _
    exact absurd h1 (by simp)

/-- An inconsistency used in the concrete delta scenarios. -/
def exIssueNew : Inconsistency :=
  ⟨"e1", "broken-link", Severity.high, "Broken link to missing.md",
    ⟨"README.md", some 3, none⟩⟩

/-- A concrete analysis result: one high-severity issue over 3 files. -/
def exFirstRunResult : AnalysisResult := ⟨[exIssueNew], ⟨3, none⟩⟩

/-- A concrete previous run whose single stored issue has the same
fingerprint as `exIssueNew`. -/
def exPrevRunSame : PreviousRun :=
  ⟨90, [{ id := "s0", analysisId := "a0", projectId := "p0",
          fingerprint := fingerprintSource exIssueNew, type := "broken-link",
          severity := Severity.high, message := "Broken link to missing.md",
          location := ⟨"README.md", some 3, none⟩, firstSeenAt := "t0",
          status := Status.open_ }]⟩

/-- The head of the classified list in the concrete persisting
scenario. -/
def exDeltaPersisting : IssueDelta :=
  ((computeDelta fingerprintSource (some exPrevRunSame) [] [] exFirstRunResult).issues).headD
    ⟨"", DeltaClassification.new, Severity.low, none, none⟩

/-- Witness for C3: in the concrete scenario the surviving issue is
classified by the claim's rules, and the applicable rule is
persisting. -/
theorem C3_classification_priority_witness :
    some exDeltaPersisting.classification
      = specClassify
          (mapHas (currentFingerprintMap fingerprintSource exFirstRunResult)
            exDeltaPersisting.fingerprint)
          ((exPrevRunSame.issues.map (fun s => s.fingerprint)).contains
            exDeltaPersisting.fingerprint)
          ((mapGet ([] : List (String × Status)) exDeltaPersisting.fingerprint).getD
            Status.open_)
          (([] : List String).contains exDeltaPersisting.fingerprint)
    ∧ exDeltaPersisting.classification = DeltaClassification.persisting :=
  ⟨(C3_classification_priority fingerprintSource exPrevRunSame [] [] exFirstRunResult
      exDeltaPersisting (by decide)).1, by decide⟩

/-- C4 fails on the code: on a first run `computeDelta` sets
`isFirstRun` but still classifies every current issue — with one current
issue the classified list is not empty. -/
theorem C4_first_run_counterexample :
    (computeDelta fingerprintSource none [] [] exFirstRunResult).isFirstRun = true
    ∧ (computeDelta fingerprintSource none [] [] exFirstRunResult).issues ≠ [] := by
  constructor
  · rfl
  · decide

/-- C4 as amended: when no previous run exists the result is marked
first-run (`isFirstRun` true, `previousHealthScore` null,
`healthDelta` 0), but classification is not short-circuited: the issue
list carries one entry per distinct current fingerprint, and no entry is
classified persisting or resolved. -/
theorem C4_amended_first_run (fp : Inconsistency → String)
    (everResolvedFingerprints : List String) (currentStatusMap : List (String × Status))
    (currentResult : AnalysisResult) :
    (computeDelta fp none everResolvedFingerprints currentStatusMap currentResult).isFirstRun
        = true
    ∧ (computeDelta fp none everResolvedFingerprints currentStatusMap
        currentResult).previousHealthScore = none
    ∧ (computeDelta fp none everResolvedFingerprints currentStatusMap
        currentResult).healthDelta = 0
    ∧ ((computeDelta fp none everResolvedFingerprints currentStatusMap
        currentResult).issues.map (fun d => d.fingerprint))
        = (currentFingerprintMap fp currentResult).map (fun p => p.1)
    ∧ ∀ d ∈ (computeDelta fp none everResolvedFingerprints currentStatusMap
        currentResult).issues,
        d.classification ≠ DeltaClassification.persisting
        ∧ d.classification ≠ DeltaClassification.resolved := by
  refine ⟨rfl, rfl, rfl, ?_, ?_⟩
  · simp only [computeDelta, previousIssueMap, buildMap, List.foldl_nil, List.filter_nil,
      List.map_nil, List.append_nil, List.map_map]
    rfl
  · intro d hd
    simp only [computeDelta, previousIssueMap, buildMap, List.foldl_nil, List.filter_nil,
      List.map_nil, List.append_nil, List.mem_map] at hd
    obtain ⟨p, hp, rfl⟩ := hd
    exact classifyCurrent_not_prev _ _

/-- Witness for C4-as-amended: in the concrete first-run scenario the
flag is set and the single classified entry is not persisting. -/
theorem C4_amended_first_run_witness :
    (computeDelta fingerprintSource none [] [] exFirstRunResult).isFirstRun = true
    ∧ ((computeDelta fingerprintSource none [] [] exFirstRunResult).issues.headD
        ⟨"", DeltaClassification.new, Severity.low, none, none⟩).classification
        ≠ DeltaClassification.persisting :=
  ⟨(C4_amended_first_run fingerprintSource [] [] exFirstRunResult).1,
    ((C4_amended_first_run fingerprintSource [] [] exFirstRunResult).2.2.2.2 _
      (by decide)).1⟩

/-- C5: with a previous run, every fingerprint of the current-or-previous
union appears exactly once in the classified issue list (the fingerprint
column is duplicate-free, and a fingerprint appears iff it is a current
fingerprint or a previous stored fingerprint); each entry carries exactly
one classification by construction. -/
theorem C5_classification_completeness (fp : Inconsistency → String) (prev : PreviousRun)
    (everResolvedFingerprints : List String) (currentStatusMap : List (String × Status))
    (currentResult : AnalysisResult) :
    ((computeDelta fp (some prev) everResolvedFingerprints currentStatusMap
        currentResult).issues.map (fun d => d.fingerprint)).Nodup
    ∧ ∀ f : String,
        f ∈ (computeDelta fp (some prev) everResolvedFingerprints currentStatusMap
            currentResult).issues.map (fun d => d.fingerprint)
          ↔ ((∃ i ∈ currentResult.inconsistencies, fp i = f)
              ∨ ∃ s ∈ prev.issues, s.fingerprint = f) := by
  have hmap : (computeDelta fp (some prev) everResolvedFingerprints currentStatusMap
        currentResult).issues.map (fun d => d.fingerprint)
      = (buildMap fp currentResult.inconsistencies).map (fun p => p.1)
        ++ ((buildMap (fun s => s.fingerprint) prev.issues).filter
            (fun q => !(mapHas (buildMap fp currentResult.inconsistencies) q.1))).map
          (fun q => q.1) := by
    simp only [computeDelta, currentFingerprintMap, previousIssueMap, List.map_append,
      List.map_map]
    rfl
  rw [hmap]
  constructor
  · refine List.Nodup.append (keysNodup_buildMap fp currentResult.inconsistencies)
      (((List.filter_sublist _).map _).nodup
        (keysNodup_buildMap (fun s => s.fingerprint) prev.issues)) ?_
    intro a haA haB
    rw [List.mem_map] at haB
    obtain ⟨q, hqf, hqk⟩ := haB
    rw [List.mem_filter] at hqf
    have hnot : mapHas (buildMap fp currentResult.inconsistencies) q.1 = false := by
      simpa using hqf.2
    rw [← mapHas_iff_mem_keys] at haA
    rw [hqk] at hnot
    rw [haA] at hnot
    exact Bool.noConfusion hnot
  · intro f
    rw [List.mem_append]
    constructor
    · rintro (hA | hB)
      · left
        rw [← mapHas_iff_mem_keys, mapHas_buildMap, List.any_eq_true] at hA
        obtain ⟨i, hi, hif⟩ := hA
        exact ⟨i, hi, (eq_of_beq hif).symm⟩
      · right
        rw [List.mem_map] at hB
        obtain ⟨q, hqf, hqk⟩ := hB
        rw [List.mem_filter] at hqf
        obtain ⟨x, hx, hxk⟩ := mem_buildMap_key hqf.1
        exact ⟨x, hx, by rw [hxk, hqk]⟩
    · intro hor
      by_cases hcur : mapHas (buildMap fp currentResult.inconsistencies) f = true
      · left
        rw [← mapHas_iff_mem_keys]
        exact hcur
      · right
        rcases hor with ⟨i, hi, hif⟩ | ⟨s, hs, hsf⟩
        · exact absurd (by
            rw [mapHas_buildMap, List.any_eq_true]
            exact ⟨i, hi, beq_of_eq hif.symm⟩) hcur
        · have hprev : mapHas (buildMap (fun s => s.fingerprint) prev.issues) f = true := by
            rw [mapHas_buildMap, List.any_eq_true]
            exact ⟨s, hs, beq_of_eq hsf.symm⟩
          obtain ⟨v, hv⟩ := exists_of_mapHas hprev
          rw [List.mem_map]
          refine ⟨(f, v), ?_, rfl⟩
          rw [List.mem_filter]
          refine ⟨hv, ?_⟩
          have hfalse : mapHas (buildMap fp currentResult.inconsistencies) f = false := by
            simpa using hcur
          show (!mapHas (buildMap fp currentResult.inconsistencies) f) = true
          rw [hfalse]
          rfl

/-- A concrete previous run with a single stored issue whose fingerprint
does not occur in the current run. -/
def exPrevRunOld : PreviousRun :=
  ⟨80, [⟨"s-1", "a-1", "p-1", "oldfp", "broken-link", Severity.medium, "m",
    ⟨"x.md", none, none⟩, "t0", Status.open_⟩]⟩

/-- Witness for C5: in a concrete two-run scenario, a fingerprint present
only in the previous run still appears in the classified list. -/
theorem C5_classification_completeness_witness :
    "oldfp" ∈ (computeDelta fingerprintSource (some exPrevRunOld) [] []
        exFirstRunResult).issues.map (fun d => d.fingerprint) :=
  ((C5_classification_completeness fingerprintSource exPrevRunOld [] []
      exFirstRunResult).2 "oldfp").mpr
    (Or.inr ⟨exPrevRunOld.issues.headD
        ⟨"", "", "", "", "", Severity.low, "", ⟨"", none, none⟩, "", Status.open_⟩,
      by decide, by decide⟩)

/-- Witness for C1: the attribution closure at the concrete persisting
scenario. -/
theorem C1_attribution_closure_witness :
    (computeDelta fingerprintSource (some exPrevRunSame) [] []
          exFirstRunResult).healthAttribution.fromNewIssues
        + (computeDelta fingerprintSource (some exPrevRunSame) [] []
          exFirstRunResult).healthAttribution.fromResolvedIssues
        + (computeDelta fingerprintSource (some exPrevRunSame) [] []
          exFirstRunResult).healthAttribution.fromSeverityMix
      = (computeDelta fingerprintSource (some exPrevRunSame) [] []
          exFirstRunResult).healthDelta :=
  (C1_attribution_closure fingerprintSource exPrevRunSame [] [] exFirstRunResult).1

/-! ## Analysis persistence (`storage.ts`, `saveAnalysis`)

The issue-saving tail of `saveAnalysis` is embedded as a pure function
of the inputs the awaited IndexedDB calls provide: the previously stored
issues of the project (`getByIndex` on `projectId`), the save timestamp,
and the new run's inconsistencies.  `generateUUID` is abstracted as a
function of the issue's position. -/

/-- The `fingerprintFirstSeen` map of `saveAnalysis`: for each
fingerprint, the `firstSeenAt` of the first existing issue carrying it
(`set` only when not already present). -/
def fingerprintFirstSeen (existingIssues : List StoredIssue) : List (String × String) :=
  existingIssues.foldl
    (fun m issue =>
      if mapHas m issue.fingerprint then m
      else m ++ [(issue.fingerprint, issue.firstSeenAt)]) []

/-- The stored issues written by one `saveAnalysis` call: one record per
inconsistency, fingerprinted, `firstSeenAt` looked up in
`fingerprintFirstSeen` with the save timestamp as fallback, status
`open`. -/
def saveAnalysisIssues (fp : Inconsistency → String) (uuid : Nat → String)
    (analysisId projectId timestamp : String) (existingIssues : List StoredIssue)
    (inconsistencies : List Inconsistency) : List StoredIssue :=
  inconsistencies.enum.map (fun p =>
    { id := uuid p.1
      analysisId := analysisId
      projectId := projectId
      fingerprint := fp p.2
      type := p.2.type
      severity := p.2.severity
      message := p.2.message
      location := p.2.location
      firstSeenAt := (mapGet (fingerprintFirstSeen existingIssues) (fp p.2)).getD timestamp
      status := Status.open_ })

/-- A lookup misses exactly when the key is absent. -/
theorem mapGet_eq_none_iff {α : Type} (m : List (String × α)) (k : String) :
    mapGet m k = none ↔ mapHas m k = false := by
  unfold mapGet mapHas
  cases hf : List.find? (fun p => p.1 == k) m with
  | none =>
    rw [List.find?_eq_none] at hf
    simp only [Option.map_none', true_iff]
    rw [← Bool.not_eq_true, List.any_eq_true]
    rintro ⟨p, hp, hb⟩
    exact hf p hp hb
  | some p =>
    have hp := List.find?_some hf
    have hmem := List.mem_of_find?_eq_some hf
    simp only [Option.map_some']
    constructor
    · intro h
      exact absurd h (by simp)
    · intro h
      have htrue : (m.any fun q => q.1 == k) = true := List.any_eq_true.mpr ⟨p, hmem, hp⟩
      rw [htrue] at h
      exact Bool.noConfusion h

/-- Lookup after appending one binding: the old lookup wins, the new
binding answers only a fresh key. -/
theorem mapGet_append_one {α : Type} (m : List (String × α)) (k0 k : String) (v0 : α) :
    mapGet (m ++ [(k0, v0)]) k
      = (mapGet m k).orElse (fun _ => if k0 == k then some v0 else none) := by
  unfold mapGet
  rw [List.find?_append]
  cases hf : List.find? (fun p => p.1 == k) m with
  | none =>
    simp only [Option.map_none', Option.none_orElse]
    by_cases hk : (k0 == k) = true
    · rw [show List.find? (fun p => p.1 == k) [(k0, v0)] = some (k0, v0) from
        List.find?_cons_of_pos _ hk, if_pos hk]
      simp
    · rw [show List.find? (fun p => p.1 == k) [(k0, v0)] = none from
        (@List.find?_cons_of_neg _ (fun q => q.1 == k) (k0, v0) [] hk).trans rfl, if_neg hk]
      simp
  | some p => simp

/-- A fresh fingerprint is absent from the first-seen map. -/
theorem fingerprintFirstSeen_fresh (existingIssues : List StoredIssue) (k : String)
    (h : ∀ e ∈ existingIssues, e.fingerprint ≠ k) :
    mapGet (fingerprintFirstSeen existingIssues) k = none := by
  unfold fingerprintFirstSeen
  suffices hgen : ∀ (init : List (String × String)), mapGet init k = none →
      mapGet (existingIssues.foldl
        (fun m issue =>
          if mapHas m issue.fingerprint then m
          else m ++ [(issue.fingerprint, issue.firstSeenAt)]) init) k = none by
    exact hgen [] rfl
  induction existingIssues with
  | nil => intro init hinit; simpa using hinit
  | cons e es ih =>
    intro init hinit
    have hek : e.fingerprint ≠ k := h e (List.mem_cons_self e es)
    have htail : ∀ x ∈ es, x.fingerprint ≠ k := fun x hx => h x (List.mem_cons_of_mem e hx)
    simp only [List.foldl_cons]
    have hstep : mapGet
        (if mapHas init e.fingerprint then init
         else init ++ [(e.fingerprint, e.firstSeenAt)]) k = none := by
      split
      · exact hinit
      · rw [mapGet_append_one, hinit]
        have : (e.fingerprint == k) = false := by
          rw [← Bool.not_eq_true]
          intro hb
          exact hek (eq_of_beq hb)
        simp [this]
    exact (fun hh => ih hh _ hstep) htail

/-- A fingerprint all of whose prior occurrences carry `firstSeenAt = t0`
looks up to `t0` once it occurs at all. -/
theorem fingerprintFirstSeen_prior (existingIssues : List StoredIssue) (k t0 : String)
    (hex : ∃ e ∈ existingIssues, e.fingerprint = k)
    (hall : ∀ e ∈ existingIssues, e.fingerprint = k → e.firstSeenAt = t0) :
    mapGet (fingerprintFirstSeen existingIssues) k = some t0 := by
  unfold fingerprintFirstSeen
  suffices hgen : ∀ (init : List (String × String)),
      (mapGet init k = some t0 ∨ (mapGet init k = none ∧ ∃ e ∈ existingIssues, e.fingerprint = k)) →
      (∀ e ∈ existingIssues, e.fingerprint = k → e.firstSeenAt = t0) →
      mapGet (existingIssues.foldl
        (fun m issue =>
          if mapHas m issue.fingerprint then m
          else m ++ [(issue.fingerprint, issue.firstSeenAt)]) init) k = some t0 by
    exact hgen [] (Or.inr ⟨rfl, hex⟩) hall
  clear hex hall
  induction existingIssues with
  | nil =>
    intro init hinit _
    rcases hinit with h | ⟨_, ⟨e, he, _⟩⟩
    · simpa using h
    · exact absurd he (List.not_mem_nil e)
  | cons e es ih =>
    intro init hinit hall
    simp only [List.foldl_cons]
    have htail : ∀ x ∈ es, x.fingerprint = k → x.firstSeenAt = t0 :=
      fun x hx => hall x (List.mem_cons_of_mem e hx)
    refine ih _ ?_ htail
    rcases hinit with hsome | ⟨hnone, ⟨e', he', hk'⟩⟩
    · left
      split
      · exact hsome
      · rw [mapGet_append_one, hsome]
        rfl
    · by_cases hek : e.fingerprint = k
      · left
        have hhasf : mapHas init e.fingerprint = false := by
          rw [hek]
          exact (mapGet_eq_none_iff init k).mp hnone
        rw [if_neg (by rw [hhasf]; exact Bool.false_ne_true)]
        rw [mapGet_append_one, hnone]
        have hb : (e.fingerprint == k) = true := beq_of_eq hek
        have hfsa : e.firstSeenAt = t0 := hall e (List.mem_cons_self e es) hek
        simp [hb, hfsa]
      · right
        constructor
        · split
          · exact hnone
          · rw [mapGet_append_one, hnone]
            have : (e.fingerprint == k) = false := by
              rw [← Bool.not_eq_true]
              intro hb
              exact hek (eq_of_beq hb)
            simp [this]
        · rcases List.mem_cons.mp he' with rfl | hmem
          · exact absurd hk' hek
          · exact ⟨e', hmem, hk'⟩

/-- C8: every issue stored by a save is created with status `open`; a
fingerprint never seen before for the project gets
`firstSeenAt = timestamp`, and a re-occurring fingerprint keeps the
`firstSeenAt` recorded among all prior stored issues of the project. -/
theorem C8_first_seen_preserved (fp : Inconsistency → String) (uuid : Nat → String)
    (analysisId projectId timestamp : String) (existingIssues : List StoredIssue)
    (inconsistencies : List Inconsistency) :
    ∀ s ∈ saveAnalysisIssues fp uuid analysisId projectId timestamp existingIssues
        inconsistencies,
      s.status = Status.open_
      ∧ ((∀ e ∈ existingIssues, e.fingerprint ≠ s.fingerprint) →
          s.firstSeenAt = timestamp)
      ∧ (∀ t0 : String, (∃ e ∈ existingIssues, e.fingerprint = s.fingerprint) →
          (∀ e ∈ existingIssues, e.fingerprint = s.fingerprint → e.firstSeenAt = t0) →
          s.firstSeenAt = t0) := by
  intro s hs
  unfold saveAnalysisIssues at hs
  rw [List.mem_map] at hs
  obtain ⟨p, _, rfl⟩ := hs
  refine ⟨rfl, ?_, ?_⟩
  · intro hnone
    dsimp only at hnone ⊢
    rw [fingerprintFirstSeen_fresh existingIssues (fp p.2) hnone]
    rfl
  · intro t0 hex hall
    dsimp only at hex hall ⊢
    rw [fingerprintFirstSeen_prior existingIssues (fp p.2) t0 hex hall]
    rfl

/-- A concrete prior store: the fingerprint of `exIssueNew` was first
seen on 2024-01-01 (and later marked resolved). -/
def exExistingIssues : List StoredIssue :=
  [⟨"sA", "aA", "pA", fingerprintSource exIssueNew, "broken-link", Severity.high,
    "Broken link to missing.md", ⟨"README.md", some 3, none⟩, "2024-01-01",
    Status.resolved⟩]

/-- The record stored for `exIssueNew` on a later save. -/
def exSavedIssue : StoredIssue :=
  (saveAnalysisIssues fingerprintSource (fun _ => "u0") "a1" "p1" "2024-02-02"
      exExistingIssues [exIssueNew]).headD
    ⟨"", "", "", "", "", Severity.low, "", ⟨"", none, none⟩, "", Status.open_⟩

/-- Witness for C8: the re-saved issue is open and keeps the original
`firstSeenAt` of 2024-01-01 rather than the new save timestamp. -/
theorem C8_first_seen_preserved_witness :
    exSavedIssue.status = Status.open_ ∧ exSavedIssue.firstSeenAt = "2024-01-01" :=
  ⟨(C8_first_seen_preserved fingerprintSource (fun _ => "u0") "a1" "p1" "2024-02-02"
      exExistingIssues [exIssueNew] exSavedIssue (by decide)).1,
    (C8_first_seen_preserved fingerprintSource (fun _ => "u0") "a1" "p1" "2024-02-02"
      exExistingIssues [exIssueNew] exSavedIssue (by decide)).2.2 "2024-01-01"
      (by decide) (by decide)⟩

/-! ## Heading slugs (`markdown-parser.ts` / `analysis.worker.ts`,
`slugify`)

Both copies of `slugify` are identical: lowercase, trim, strip
characters outside `\w`, whitespace and hyphen, turn whitespace runs
into hyphens, collapse hyphen runs. -/

/-- The character class kept by `replace(/[^\w\s-]/g, '')`. -/
def slugChar (c : Char) : Bool := isWordChar c || isSpaceChar c || c = '-'

/-- The `/\s+/g → '-'` pass of `slugify`. -/
def spacesToHyphensAux : Bool → List Char → List Char
  | _, [] => []
  | inRun, c :: rest =>
    if isSpaceChar c then
      if inRun then spacesToHyphensAux true rest
      else '-' :: spacesToHyphensAux true rest
    else c :: spacesToHyphensAux false rest

/-- The hyphen-run collapsing pass of `slugify` (every run of hyphens
becomes a single hyphen). -/
def collapseHyphensAux : Bool → List Char → List Char
  | _, [] => []
  | inRun, c :: rest =>
    if c = '-' then
      if inRun then collapseHyphensAux true rest
      else '-' :: collapseHyphensAux true rest
    else c :: collapseHyphensAux false rest

/-- `slugify` translated from the source: lowercase, trim, strip
non-`[\w\s-]` characters, whitespace runs to `-`, collapse `-` runs. -/
def slugify (text : String) : String :=
  String.mk (collapseHyphensAux false (spacesToHyphensAux false
    ((jsTrim (text.data.map Char.toLower)).filter slugChar)))

/-- Packing a small scalar value and unpacking it is the identity. -/
theorem toNat_ofNat_valid (n : Nat) (h : n.isValidChar) : (Char.ofNat n).toNat = n := by
  rw [Char.ofNat, dif_pos h]
  rfl

/-- A character that is not an ASCII capital is fixed by `toLower`. -/
theorem toLower_eq_self_of_not_upper (c : Char)
    (h : ¬(c.toNat ≥ 65 ∧ c.toNat ≤ 90)) : c.toLower = c := by
  unfold Char.toLower
  exact if_neg h

/-- `toLower` never produces an ASCII capital. -/
theorem toLower_not_upper (c : Char) :
    ¬(c.toLower.toNat ≥ 65 ∧ c.toLower.toNat ≤ 90) := by
  unfold Char.toLower
  by_cases h : c.toNat ≥ 65 ∧ c.toNat ≤ 90
  · rw [if_pos h]
    have hv : (c.toNat + 32).isValidChar := Or.inl (by omega)
    rw [toNat_ofNat_valid _ hv]
    omega
  · rw [if_neg h]
    exact h

/-- ASCII lower-casing is idempotent. -/
theorem toLower_toLower (c : Char) : c.toLower.toLower = c.toLower :=
  toLower_eq_self_of_not_upper _ (toLower_not_upper c)

/-- Members of the hyphen-collapsing output come from the input. -/
theorem mem_collapseHyphensAux {c : Char} :
    ∀ (b : Bool) (l : List Char), c ∈ collapseHyphensAux b l → c ∈ l := by
  intro b l
  induction l generalizing b with
  | nil => intro h; exact absurd h (List.not_mem_nil c)
  | cons x rest ih =>
    intro h
    by_cases hx : x = '-'
    · subst hx
      simp only [collapseHyphensAux, if_pos rfl] at h
      cases hb : b with
      | true =>
        rw [hb] at h
        simp only [if_pos rfl] at h
        exact List.mem_cons_of_mem _ (ih true h)
      | false =>
        rw [hb] at h
        simp only [Bool.false_eq_true, if_neg] at h
        rcases List.mem_cons.mp h with rfl | h2
        · exact List.mem_cons_self _ _
        · exact List.mem_cons_of_mem _ (ih true h2)
    · simp only [collapseHyphensAux, if_neg hx] at h
      rcases List.mem_cons.mp h with rfl | h2
      · exact List.mem_cons_self _ _
      · exact List.mem_cons_of_mem _ (ih false h2)

/-- Members of the space-to-hyphen output are hyphens or non-space input
characters; in particular none is whitespace. -/
theorem mem_spacesToHyphensAux {c : Char} :
    ∀ (b : Bool) (l : List Char), c ∈ spacesToHyphensAux b l →
      (c = '-' ∨ c ∈ l) ∧ isSpaceChar c = false := by
  intro b l
  induction l generalizing b with
  | nil => intro h; exact absurd h (List.not_mem_nil c)
  | cons x rest ih =>
    intro h
    by_cases hx : isSpaceChar x = true
    · simp only [spacesToHyphensAux, if_pos hx] at h
      cases hb : b with
      | true =>
        rw [hb] at h
        simp only [if_pos rfl] at h
        obtain ⟨hor, hns⟩ := ih true h
        exact ⟨hor.imp id (List.mem_cons_of_mem x), hns⟩
      | false =>
        rw [hb] at h
        simp only [Bool.false_eq_true, if_neg] at h
        rcases List.mem_cons.mp h with rfl | h2
        · exact ⟨Or.inl rfl, by decide⟩
        · obtain ⟨hor, hns⟩ := ih true h2
          exact ⟨hor.imp id (List.mem_cons_of_mem x), hns⟩
    · simp only [spacesToHyphensAux, if_neg hx] at h
      rcases List.mem_cons.mp h with rfl | h2
      · exact ⟨Or.inr (List.mem_cons_self _ _), by simpa using hx⟩
      · obtain ⟨hor, hns⟩ := ih false h2
        exact ⟨hor.imp id (List.mem_cons_of_mem x), hns⟩

/-- Members of the trimmed list come from the original list. -/
theorem mem_jsTrim {c : Char} {l : List Char} (h : c ∈ jsTrim l) : c ∈ l := by
  unfold jsTrim at h
  rw [List.mem_reverse] at h
  have h1 := (List.dropWhile_sublist _).mem h
  rw [List.mem_reverse] at h1
  exact (List.dropWhile_sublist _).mem h1

/-- Mapping a function that fixes every member is the identity. -/
theorem map_toLower_eq_self (l : List Char) (h : ∀ c ∈ l, Char.toLower c = c) :
    l.map Char.toLower = l := by
  induction l with
  | nil => rfl
  | cons c rest ih =>
    rw [List.map_cons, h c (List.mem_cons_self c rest),
      ih (fun x hx => h x (List.mem_cons_of_mem c hx))]

/-- Dropping a prefix that matches nowhere is the identity. -/
theorem dropWhile_eq_self_of_none (p : Char → Bool) (l : List Char)
    (h : ∀ c ∈ l, p c = false) : l.dropWhile p = l := by
  cases l with
  | nil => rfl
  | cons c rest =>
    rw [List.dropWhile_cons, h c (List.mem_cons_self c rest)]
    simp

/-- Trimming a list without whitespace is the identity. -/
theorem jsTrim_eq_self (l : List Char) (h : ∀ c ∈ l, isSpaceChar c = false) :
    jsTrim l = l := by
  unfold jsTrim
  rw [dropWhile_eq_self_of_none _ _ h,
    dropWhile_eq_self_of_none _ _ (fun c hc => h c (List.mem_reverse.mp hc)),
    List.reverse_reverse]

/-- The space-to-hyphen pass is the identity on whitespace-free input. -/
theorem spacesToHyphensAux_eq_self (b : Bool) (l : List Char)
    (h : ∀ c ∈ l, isSpaceChar c = false) : spacesToHyphensAux b l = l := by
  induction l generalizing b with
  | nil => rfl
  | cons c rest ih =>
    have hc : isSpaceChar c = false := h c (List.mem_cons_self c rest)
    have hcne : ¬(isSpaceChar c = true) := by rw [hc]; exact Bool.false_ne_true
    rw [spacesToHyphensAux, if_neg hcne,
      ih false (fun x hx => h x (List.mem_cons_of_mem c hx))]

/-- Hyphen collapsing is idempotent (in both run states). -/
theorem collapseHyphensAux_idem (l : List Char) :
    collapseHyphensAux false (collapseHyphensAux false l) = collapseHyphensAux false l
    ∧ collapseHyphensAux true (collapseHyphensAux true l) = collapseHyphensAux true l := by
  induction l with
  | nil => exact ⟨rfl, rfl⟩
  | cons c rest ih =>
    by_cases hc : c = '-'
    · subst hc
      have h1 : ∀ x : List Char,
          collapseHyphensAux false ('-' :: x) = '-' :: collapseHyphensAux true x :=
        fun x => rfl
      have h2 : ∀ x : List Char,
          collapseHyphensAux true ('-' :: x) = collapseHyphensAux true x :=
        fun x => rfl
      constructor
      · rw [h1 rest, h1 (collapseHyphensAux true rest), ih.2]
      · rw [h2 rest, ih.2]
    · have hcons : ∀ (b : Bool) (x : List Char),
          collapseHyphensAux b (c :: x) = c :: collapseHyphensAux false x := by
        intro b x
        rw [collapseHyphensAux, if_neg hc]
      constructor
      · rw [hcons false rest, hcons false (collapseHyphensAux false rest), ih.1]
      · rw [hcons true rest, hcons true (collapseHyphensAux false rest), ih.1]

/-- C10: the heading-slug function is idempotent, so anchor comparison
is insensitive to whether the anchor text was already in slug form. -/
theorem C10_slugify_idempotent : ∀ s : String, slugify (slugify s) = slugify s := by
  intro s
  unfold slugify
  congr 1
  set L := collapseHyphensAux false (spacesToHyphensAux false
    ((jsTrim (s.data.map Char.toLower)).filter slugChar)) with hL
  show collapseHyphensAux false (spacesToHyphensAux false
    ((jsTrim (L.map Char.toLower)).filter slugChar)) = L
  have hchar : ∀ c ∈ L, Char.toLower c = c ∧ isSpaceChar c = false ∧ slugChar c = true := by
    intro c hc
    rw [hL] at hc
    have hc1 := mem_collapseHyphensAux false _ hc
    obtain ⟨hor, hns⟩ := mem_spacesToHyphensAux false _ hc1
    rcases hor with rfl | hmem
    · exact ⟨by decide, by decide, by decide⟩
    · rw [List.mem_filter] at hmem
      obtain ⟨hmem1, hslug⟩ := hmem
      have hmem2 := mem_jsTrim hmem1
      rw [List.mem_map] at hmem2
      obtain ⟨a, _, rfl⟩ := hmem2
      exact ⟨toLower_toLower a, hns, hslug⟩
  rw [map_toLower_eq_self L (fun c hc => (hchar c hc).1),
    jsTrim_eq_self L (fun c hc => (hchar c hc).2.1),
    List.filter_eq_self.mpr (fun c hc => (hchar c hc).2.2),
    spacesToHyphensAux_eq_self false L (fun c hc => (hchar c hc).2.1),
    hL]
  exact (collapseHyphensAux_idem _).1

/-- Witness for C10 at a concrete heading: applying `slugify` twice
equals applying it once, and the slug has the expected GitHub form. -/
theorem C10_slugify_idempotent_witness :
    slugify (slugify "Hello,  World!") = slugify "Hello,  World!"
    ∧ slugify "Hello,  World!" = "hello-world" :=
  ⟨C10_slugify_idempotent "Hello,  World!", by decide⟩

/-! ## Numerical consistency detector (`numerical.ts`)

The single-pass extraction regex `COMBINED_PATTERN`, the skip patterns
and the code-block stripping are embedded as explicit scanners with
JavaScript regex semantics (scan left to right, first matching start
position wins, greedy quantifiers; the only backtracking the patterns
can perform — optional groups whose commitment is forced by the
following required token — is resolved statically as in the analysis of
each pattern).  Anchored unit regexes are replaced by the explicit
enumeration of their finite languages. -/

/-- The backtick character (code 96). -/
def backtick : Char := Char.ofNat 96

/-- Three consecutive backticks at the head. -/
def isTripleBacktick (s : List Char) : Bool :=
  match s with
  | a :: b :: c :: _ => a = backtick && b = backtick && c = backtick
  | _ => false

/-- Distance to just past the nearest closing fence (the non-greedy
`[\s\S]*?` of the fenced-block regex). -/
def findFenceClose : Nat → List Char → Option Nat
  | 0, _ => none
  | fuel + 1, s =>
    if isTripleBacktick s then some 3
    else
      match s with
      | [] => none
      | _ :: rest => (findFenceClose fuel rest).map (fun n => n + 1)

/-- Matcher for the fenced-code-block regex (replacement empty). -/
def matchFenced (_prev : Option Char) (s : List Char) : Option (Nat × List Char) :=
  if isTripleBacktick s then
    match findFenceClose (s.length + 1) (s.drop 3) with
    | some n => some (3 + n, [])
    | none => none
  else none

/-- Matcher for the inline-code regex (a backtick, a nonempty run of
non-backticks, a backtick; replacement empty). -/
def matchInlineCode (_prev : Option Char) (s : List Char) : Option (Nat × List Char) :=
  match s with
  | c :: rest =>
    if c = backtick then
      let k := countWhile (fun ch => !(ch = backtick)) rest
      if k = 0 then none
      else
        match rest.drop k with
        | _ :: _ => some (1 + k + 1, [])
        | [] => none
    else none
  | [] => none

/-- `stripCodeBlocks`: remove fenced blocks, then inline code. -/
def stripCodeBlocks (content : List Char) : List Char :=
  runPass matchInlineCode (runPass matchFenced content)

/-- `String.prototype.split('\n')`. -/
def splitAux : List Char → List Char → List (List Char)
  | acc, [] => [acc.reverse]
  | acc, c :: rest =>
    if c = '\n' then acc.reverse :: splitAux [] rest else splitAux (c :: acc) rest

/-- Split a character list on newlines. -/
def splitOnNewline (s : List Char) : List (List Char) := splitAux [] s

/-- Does a matcher succeed at some position of the line (JavaScript
`RegExp.prototype.test`)? -/
def existsMatch (m : List Char → Bool) : List Char → Bool
  | [] => m []
  | c :: rest => m (c :: rest) || existsMatch m rest

/-- Consume exactly `n` digits. -/
def dropDigits : Nat → List Char → Option (List Char)
  | 0, s => some s
  | _ + 1, [] => none
  | n + 1, c :: r => if c.isDigit then dropDigits n r else none

/-- Skip-pattern `version\s*[\d.]+` at the current position. -/
def matchVersionAt (s : List Char) : Bool :=
  match matchCI ['v', 'e', 'r', 's', 'i', 'o', 'n'] s with
  | none => false
  | some rest =>
    let ws := countWhile isSpaceChar rest
    countWhile (fun c => c.isDigit || c = '.') (rest.drop ws) != 0

/-- Skip-pattern `v\d+\.\d+` at the current position. -/
def matchVNumAt (s : List Char) : Bool :=
  match s with
  | c :: rest =>
    if c.toLower = 'v' then
      let d1 := countWhile Char.isDigit rest
      if d1 = 0 then false
      else
        match rest.drop d1 with
        | c2 :: r2 => c2 = '.' && countWhile Char.isDigit r2 != 0
        | [] => false
    else false
  | [] => false

/-- The date skip-pattern (four digits, hyphen or slash, two digits,
hyphen or slash, two digits) at the current position. -/
def matchDateAt (s : List Char) : Bool :=
  match dropDigits 4 s with
  | some (c :: r1) =>
    (c = '-' || c = '/') &&
      (match dropDigits 2 r1 with
       | some (c2 :: r2) => (c2 = '-' || c2 = '/') && (dropDigits 2 r2).isSome
       | _ => false)
  | _ => false

/-- Four consecutive digits at the current position. -/
def fourDigitsAt (s : List Char) : Bool := (dropDigits 4 s).isSome

/-- Tail of the copyright pattern: `.*\d{4}` (the dot does not cross
line terminators). -/
def dotStarDigits4 : List Char → Bool
  | [] => false
  | c :: rest =>
    fourDigitsAt (c :: rest) || (if c = '\n' || c = '\r' then false else dotStarDigits4 rest)

/-- Skip-pattern `copyright.*\d{4}` at the current position. -/
def matchCopyrightAt (s : List Char) : Bool :=
  match matchCI ['c', 'o', 'p', 'y', 'r', 'i', 'g', 'h', 't'] s with
  | none => false
  | some rest => dotStarDigits4 rest

/-- A word then `\s*\d+` at the current position (the `line` and `port`
skip patterns). -/
def matchWordNumAt (w : List Char) (s : List Char) : Bool :=
  match matchCI w s with
  | none => false
  | some rest =>
    let ws := countWhile isSpaceChar rest
    countWhile Char.isDigit (rest.drop ws) != 0

/-- Skip-pattern `id[:=]\s*\d+` at the current position. -/
def matchIdAt (s : List Char) : Bool :=
  match matchCI ['i', 'd'] s with
  | none => false
  | some rest =>
    match rest with
    | c :: r2 =>
      (c = ':' || c = '=') &&
        countWhile Char.isDigit (r2.drop (countWhile isSpaceChar r2)) != 0
    | [] => false

/-- `shouldSkip`: any of the `SKIP_PATTERNS` tests the line. -/
def shouldSkip (line : List Char) : Bool :=
  existsMatch matchVersionAt line
    || existsMatch matchVNumAt line
    || existsMatch matchDateAt line
    || existsMatch matchCopyrightAt line
    || existsMatch (matchWordNumAt ['l', 'i', 'n', 'e']) line
    || existsMatch (matchWordNumAt ['p', 'o', 'r', 't']) line
    || existsMatch matchIdAt line

/-- The separator-word alternation of `COMBINED_PATTERN`
(`is|are|equals?|set\s+to|defaults?\s+to|of|at`, case-insensitive, in
source order); returns the consumed length.  The optional `s` of
`equals?`/`defaults?` can be committed greedily: when taking it makes
the rest of the pattern fail, leaving it would put a required token on
the letter `s` and fail as well. -/
def matchSepWord (s : List Char) : Option Nat :=
  match matchCI ['i', 's'] s with
  | some _ => some 2
  | none =>
  match matchCI ['a', 'r', 'e'] s with
  | some _ => some 3
  | none =>
  match matchCI ['e', 'q', 'u', 'a', 'l'] s with
  | some rest =>
    match rest with
    | c :: _ => if c.toLower = 's' then some 6 else some 5
    | [] => some 5
  | none =>
  match matchCI ['s', 'e', 't'] s with
  | some rest =>
    let w := countWhile isSpaceChar rest
    if w = 0 then none
    else (matchCI ['t', 'o'] (rest.drop w)).map (fun _ => 3 + w + 2)
  | none =>
  match matchCI ['d', 'e', 'f', 'a', 'u', 'l', 't'] s with
  | some rest =>
    let os : Nat :=
      match rest with
      | c :: _ => if c.toLower = 's' then 1 else 0
      | [] => 0
    let rest2 := rest.drop os
    let w := countWhile isSpaceChar rest2
    if w = 0 then none
    else (matchCI ['t', 'o'] (rest2.drop w)).map (fun _ => 7 + os + w + 2)
  | none =>
  match matchCI ['o', 'f'] s with
  | some _ => some 2
  | none =>
  match matchCI ['a', 't'] s with
  | some _ => some 2
  | none => none

/-- The separator of `COMBINED_PATTERN`: either `\s*[:=]` or
`\s+(word)`; the colon/equals alternative is tried first.  Inside a
whitespace run neither `[:=]` nor a separator word can start, so the
greedy `\s*`/`\s+` need no backtracking. -/
def matchSep (s : List Char) : Option Nat :=
  let ws := countWhile isSpaceChar s
  match s.drop ws with
  | c :: _ =>
    if c = ':' || c = '=' then some (ws + 1)
    else if ws = 0 then none
    else (matchSepWord (s.drop ws)).map (fun n => ws + n)
  | [] => none

/-- The `(?:,\d{3})*` comma groups of the value pattern; returns the
consumed length. -/
def commaGroups : List Char → Nat
  | ',' :: a :: b :: c :: rest =>
    if a.isDigit && b.isDigit && c.isDigit then 4 + commaGroups rest else 0
  | _ => 0

/-- The `(?<value>...)` number pattern: optional sign, digits, comma
groups, optional decimal part, optional exponent; returns consumed
length and the matched characters. -/
def matchValue (s : List Char) : Option (Nat × List Char) :=
  let sgn : Nat :=
    match s with
    | '-' :: _ => 1
    | _ => 0
  let s1 := s.drop sgn
  let d := countWhile Char.isDigit s1
  if d = 0 then none
  else
    let s2 := s1.drop d
    let cg := commaGroups s2
    let s3 := s2.drop cg
    let fr : Nat :=
      match s3 with
      | '.' :: r =>
        let df := countWhile Char.isDigit r
        if df = 0 then 0 else 1 + df
      | _ => 0
    let s4 := s3.drop fr
    let ex : Nat :=
      match s4 with
      | c :: r =>
        if c.toLower = 'e' then
          match r with
          | c2 :: r2 =>
            if c2 = '+' || c2 = '-' then
              let de := countWhile Char.isDigit r2
              if de = 0 then 0 else 2 + de
            else
              let de := countWhile Char.isDigit r
              if de = 0 then 0 else 1 + de
          | [] => 0
        else 0
      | [] => 0
    let n := sgn + d + cg + fr + ex
    some (n, s.take n)

/-- Case-insensitive literal unit alternative. -/
def tryCI (w : List Char) (s : List Char) : Option Nat :=
  (matchCI w s).map (fun _ => w.length)

/-- Case-insensitive literal with an optional trailing `s`. -/
def tryCIOptS (w : List Char) (s : List Char) : Option Nat :=
  match matchCI w s with
  | none => none
  | some rest =>
    match rest with
    | c :: _ => if c.toLower = 's' then some (w.length + 1) else some w.length
    | [] => some w.length

/-- The `min(?:utes?)?` unit alternative. -/
def tryMin (s : List Char) : Option Nat :=
  match matchCI ['m', 'i', 'n'] s with
  | none => none
  | some rest =>
    match matchCI ['u', 't', 'e'] rest with
    | some rest2 =>
      match rest2 with
      | c :: _ => if c.toLower = 's' then some 7 else some 6
      | [] => some 6
    | none => some 3

/-- The `h(?:ours?)?` unit alternative. -/
def tryH (s : List Char) : Option Nat :=
  match matchCI ['h'] s with
  | none => none
  | some rest =>
    match matchCI ['o', 'u', 'r'] rest with
    | some rest2 =>
      match rest2 with
      | c :: _ => if c.toLower = 's' then some 5 else some 4
      | [] => some 4
    | none => some 1

/-- The `[kmgtKMGT]i?[bB]` unit alternative (the optional `i` can be
committed: without it the required `[bB]` would sit on the letter
`i`). -/
def tryKMGT (s : List Char) : Option Nat :=
  match s with
  | c :: rest =>
    if c.toLower = 'k' || c.toLower = 'm' || c.toLower = 'g' || c.toLower = 't' then
      match rest with
      | c2 :: rest2 =>
        if c2.toLower = 'i' then
          match rest2 with
          | c3 :: _ => if c3.toLower = 'b' then some 3 else none
          | [] => none
        else if c2.toLower = 'b' then some 2
        else none
      | [] => none
    else none
  | [] => none

/-- The `(?<unit>...)` alternation of `COMBINED_PATTERN`, alternatives
in source order. -/
def matchUnit (s : List Char) : Option Nat :=
  match tryCI ['%'] s with
  | some n => some n
  | none =>
  match tryCI ['m', 's'] s with
  | some n => some n
  | none =>
  match tryCIOptS ['m', 'i', 'l', 'l', 'i', 's', 'e', 'c', 'o', 'n', 'd'] s with
  | some n => some n
  | none =>
  match tryCI ['s'] s with
  | some n => some n
  | none =>
  match tryCIOptS ['s', 'e', 'c', 'o', 'n', 'd'] s with
  | some n => some n
  | none =>
  match tryMin s with
  | some n => some n
  | none =>
  match tryH s with
  | some n => some n
  | none =>
  match tryCIOptS ['d', 'a', 'y'] s with
  | some n => some n
  | none =>
  match tryCIOptS ['b', 'y', 't', 'e'] s with
  | some n => some n
  | none =>
  match tryKMGT s with
  | some n => some n
  | none =>
  match tryCI ['p', 'x'] s with
  | some n => some n
  | none =>
  match tryCI ['e', 'm'] s with
  | some n => some n
  | none =>
  match tryCI ['r', 'e', 'm'] s with
  | some n => some n
  | none => none

/-- One attempt of `COMBINED_PATTERN` at the current position: the
keyword `[\w][\w_-]{1,30}` must cover the whole maximal keyword-class
run (the separator cannot start inside it), then separator, `\s*`,
value, `\s*` and optional unit.  Returns the consumed length and the
`(keyword, value, unit?)` captures. -/
def matchCombined (s : List Char) :
    Option (Nat × (List Char × List Char × Option (List Char))) :=
  match s with
  | c :: rest0 =>
    if isWordChar c then
      let run2 := countWhile (fun ch => isWordChar ch || ch = '-') rest0
      if run2 = 0 || run2 > 30 then none
      else
        let t := 1 + run2
        let restK := s.drop t
        match matchSep restK with
        | none => none
        | some sepLen =>
          let restS := restK.drop sepLen
          let ws3 := countWhile isSpaceChar restS
          let restW := restS.drop ws3
          match matchValue restW with
          | none => none
          | some (vLen, valueChars) =>
            let restV := restW.drop vLen
            let ws4 := countWhile isSpaceChar restV
            let restU := restV.drop ws4
            let unitRes := matchUnit restU
            let uLen : Nat :=
              match unitRes with
              | some n => n
              | none => 0
            some (t + sepLen + ws3 + vLen + ws4 + uLen,
              (s.take t, valueChars, unitRes.map (fun n => restU.take n)))
    else none
  | [] => none

/-- The `exec` loop of a global regex: scan left to right, collect
non-overlapping matches, resume after each match. -/
def execScan {α : Type} (matcher : List Char → Option (Nat × α)) :
    Nat → List Char → List α
  | 0, _ => []
  | _ + 1, [] => []
  | fuel + 1, c :: rest =>
    match matcher (c :: rest) with
    | some (n, a) => a :: execScan matcher fuel ((c :: rest).drop n)
    | none => execScan matcher fuel rest

/-- An `ExtractedValue` record. -/
structure ExtractedValue where
  value : JSNumber
  rawValue : String
  normalizedValue : JSNumber
  keyword : String
  normalizedKeyword : String
  unit : Option String
  baseUnit : String
  lineNumber : Nat
  filePath : String
  contextQualifiers : List String
deriving Repr, DecidableEq

/-- One reported value of a `NumericalInconsistency`. -/
structure NumValueRef where
  value : JSNumber
  rawValue : String
  unit : Option String
  filePath : String
  lineNumber : Nat
deriving Repr, DecidableEq

/-- A `NumericalInconsistency` (severity is `low` or `medium`). -/
structure NumericalInconsistency where
  keyword : String
  values : List NumValueRef
  severity : Severity
deriving Repr, DecidableEq

/-- An input file of `extractNumericalValues`
(`{ filePath, rawContent }`). -/
structure NumFile where
  filePath : String
  rawContent : String
deriving Repr, DecidableEq

/-- Digits of a numeral, most significant first. -/
def parseDigits (s : List Char) : Nat :=
  s.foldl (fun a c => a * 10 + (c.toNat - 48)) 0

/-- `parseNumber`: strip commas, then `parseFloat` of a string matched
by the value pattern (sign, digits, optional fraction, optional
exponent), as an exact rational. -/
def parseNumber (raw : List Char) : JSNumber :=
  let s := raw.filter (fun c => !(c = ','))
  let neg : Bool :=
    match s with
    | '-' :: _ => true
    | _ => false
  let s1 := if neg then s.drop 1 else s
  let dInt := countWhile Char.isDigit s1
  let intPart := parseDigits (s1.take dInt)
  let s2 := s1.drop dInt
  let fracDigits : List Char :=
    match s2 with
    | '.' :: r => r.take (countWhile Char.isDigit r)
    | _ => []
  let s3 :=
    match s2 with
    | '.' :: r => r.drop fracDigits.length
    | _ => s2
  let expPart : Int :=
    match s3 with
    | c :: r =>
      if c.toLower = 'e' then
        match r with
        | '-' :: r2 => -(parseDigits (r2.take (countWhile Char.isDigit r2)) : Int)
        | '+' :: r2 => (parseDigits (r2.take (countWhile Char.isDigit r2)) : Int)
        | _ => (parseDigits (r.take (countWhile Char.isDigit r)) : Int)
      else 0
    | [] => 0
  let baseNum : Int := (intPart * 10 ^ fracDigits.length + parseDigits fracDigits : Nat)
  let signedNum : Int := if neg then -baseNum else baseNum
  let num : Int := signedNum * (if 0 ≤ expPart then (10 : Int) ^ expPart.toNat else 1)
  let den : Nat := 10 ^ fracDigits.length * (if 0 ≤ expPart then 1 else 10 ^ (-expPart).toNat)
  ⟨num, den⟩

/-- `normalizeKeyword`: lowercase, strip `[-_\s]` separators (replacing
each run by the empty string is the same as dropping the characters),
drop one trailing `s`. -/
def normalizeKeyword (k : List Char) : List Char :=
  let l := (k.map Char.toLower).filter (fun c => !(c = '-' || c = '_' || isSpaceChar c))
  match l.getLast? with
  | some c => if c = 's' then l.dropLast else l
  | none => l

/-- Membership of the lowercased unit in the finite language of one
anchored unit regex. -/
def unitMatches (lu : List Char) (opts : List String) : Bool :=
  opts.any (fun o => lu == o.data)

/-- `normalizeUnit`: convert time units to milliseconds and size units
to bytes; each anchored case-insensitive `UNIT_NORMALIZATIONS` regex is
written out as the explicit enumeration of the strings it accepts. -/
def normalizeUnit (value : JSNumber) (unit : Option String) : JSNumber × String :=
  match unit with
  | none => (value, "none")
  | some u =>
    let lu := u.data.map Char.toLower
    if unitMatches lu ["ms", "millisecond", "milliseconds"] then
      (value.mul (JSNumber.ofInt 1), "ms")
    else if unitMatches lu ["s", "second", "seconds"] then
      (value.mul (JSNumber.ofInt 1000), "ms")
    else if unitMatches lu ["min", "minute", "minutes"] then
      (value.mul (JSNumber.ofInt 60000), "ms")
    else if unitMatches lu ["h", "hour", "hours"] then
      (value.mul (JSNumber.ofInt 3600000), "ms")
    else if unitMatches lu ["day", "days"] then
      (value.mul (JSNumber.ofInt 86400000), "ms")
    else if unitMatches lu ["byte", "bytes"] then
      (value.mul (JSNumber.ofInt 1), "bytes")
    else if unitMatches lu ["k", "ki", "kb", "kib"] then
      (value.mul (JSNumber.ofInt 1024), "bytes")
    else if unitMatches lu ["m", "mi", "mb", "mib"] then
      (value.mul (JSNumber.ofInt 1048576), "bytes")
    else if unitMatches lu ["g", "gi", "gb", "gib"] then
      (value.mul (JSNumber.ofInt 1073741824), "bytes")
    else if lu == ['%'] then (value, "%")
    else (value, String.mk lu)

/-- The `CONTEXT_QUALIFIERS` list. -/
def CONTEXT_QUALIFIERS : List String :=
  ["small", "medium", "large", "tiny", "huge",
   "minimum", "min", "maximum", "max", "default",
   "development", "dev", "production", "prod", "test", "staging",
   "local", "remote", "cloud",
   "best", "worst", "average", "typical"]

/-- JavaScript `String.prototype.includes`. -/
def containsSub (hay needle : List Char) : Bool :=
  existsMatch (fun s => needle.isPrefixOf s) hay

/-- `extractQualifiers`: the qualifiers contained in the lowercased
line. -/
def extractQualifiers (line : List Char) : List String :=
  CONTEXT_QUALIFIERS.filter (fun q => containsSub (line.map Char.toLower) q.data)

/-- Values extracted from a single line (skipped lines yield none). -/
def extractLineValues (filePath : String) (lineNumber : Nat) (line : List Char) :
    List ExtractedValue :=
  if shouldSkip line then []
  else
    (execScan matchCombined (line.length + 1) line).map (fun m =>
      let numValue := parseNumber m.2.1
      let unit := m.2.2.map String.mk
      let nu := normalizeUnit numValue unit
      { value := numValue
        rawValue := String.mk m.2.1
        normalizedValue := nu.1
        keyword := String.mk m.1
        normalizedKeyword := String.mk (normalizeKeyword m.1)
        unit := unit
        baseUnit := nu.2
        lineNumber := lineNumber
        filePath := filePath
        contextQualifiers := extractQualifiers line })

/-- `extractNumericalValues`: strip code blocks, split into lines, skip
version/date/port/id-shaped lines, run the combined pattern on each
remaining line. -/
def extractNumericalValues (files : List NumFile) : List ExtractedValue :=
  (files.map (fun file =>
    let clean := stripCodeBlocks file.rawContent.data
    (((splitOnNewline clean).enum).map (fun li =>
      extractLineValues file.filePath (li.1 + 1) li.2)).flatten)).flatten

/-- Numeric equality of `JSNumber` (JavaScript `===` on numbers, and
equality of the `value:baseUnit` string keys, which for JavaScript
numbers coincides with numeric equality). -/
instance : BEq JSNumber := ⟨JSNumber.beq⟩

/-- Insert into an insertion-ordered grouping map (JavaScript `Map` of
arrays with push). -/
def groupInsert {κ α : Type} [BEq κ] (groups : List (κ × List α)) (k : κ) (v : α) :
    List (κ × List α) :=
  if groups.any (fun g => g.1 == k) then
    groups.map (fun g => if g.1 == k then (g.1, g.2 ++ [v]) else g)
  else groups ++ [(k, [v])]

/-- `clusterByKeyword`: group extracted values by normalized keyword. -/
def clusterByKeyword (values : List ExtractedValue) :
    List (String × List ExtractedValue) :=
  values.foldl (fun gs v => groupInsert gs v.normalizedKeyword v) []

/-- The per-cluster body of `detectNumericalInconsistencies`: skip
singleton clusters, sub-group by `(normalizedValue, baseUnit)`, report
when more than one sub-group exists; severity `low` when any
contributing value has a context qualifier, else `medium`. -/
def detectCluster (values : List ExtractedValue) : Option NumericalInconsistency :=
  match values with
  | [] => none
  | v0 :: rest =>
    if (v0 :: rest).length < 2 then none
    else
      let byValue := (v0 :: rest).foldl
        (fun gs v => groupInsert gs (v.normalizedValue, v.baseUnit) v) []
      if byValue.length ≤ 1 then none
      else
        let allValues := (byValue.map (fun g => g.2)).flatten
        let hasQualifiers := allValues.any (fun v => !v.contextQualifiers.isEmpty)
        some
          { keyword := v0.keyword
            values := allValues.map (fun v =>
              { value := v.value
                rawValue := v.rawValue
                unit := v.unit
                filePath := v.filePath
                lineNumber := v.lineNumber })
            severity := if hasQualifiers then Severity.low else Severity.medium }

/-- `detectNumericalInconsistencies`: the clusters (in insertion order)
that split into more than one value group. -/
def detectNumericalInconsistencies (clusters : List (String × List ExtractedValue)) :
    List NumericalInconsistency :=
  clusters.filterMap (fun g => detectCluster g.2)

/-- Replacing matching groups is the identity when no key matches. -/
theorem map_replace_id {κ α : Type} [BEq κ] (k : κ) (v : α) (gs : List (κ × List α))
    (h : gs.any (fun g => g.1 == k) = false) :
    gs.map (fun g => if g.1 == k then (g.1, g.2 ++ [v]) else g) = gs := by
  induction gs with
  | nil => rfl
  | cons g tail ih =>
    rw [List.any_cons, Bool.or_eq_false_iff] at h
    rw [List.map_cons, if_neg (by rw [h.1]; exact Bool.false_ne_true), ih h.2]

/-- Membership in the flattened groups after one insertion. -/
theorem mem_flatten_groupInsert {κ α : Type} [BEq κ] (x : α) (gs : List (κ × List α))
    (k : κ) (v : α) :
    x ∈ ((groupInsert gs k v).map (fun g => g.2)).flatten ↔
      x ∈ (gs.map (fun g => g.2)).flatten ∨ x = v := by
  unfold groupInsert
  split
  next hex =>
    induction gs with
    | nil => exact absurd hex (by simp)
    | cons g tail ih =>
      by_cases hg : (g.1 == k) = true
      · simp only [List.map_cons, if_pos hg, List.flatten_cons, List.mem_append,
          List.mem_singleton]
        by_cases htail : tail.any (fun g => g.1 == k) = true
        · rw [ih htail]
          tauto
        · rw [map_replace_id k v tail (by simpa using htail)]
          tauto
      · have htail : tail.any (fun g => g.1 == k) = true := by
          rw [List.any_cons] at hex
          rcases Bool.or_eq_true_iff.mp hex with h | h
          · exact absurd h hg
          · exact h
        simp only [List.map_cons, if_neg hg, List.flatten_cons, List.mem_append]
        rw [ih htail]
        tauto
  next hex =>
    simp only [List.map_append, List.map_cons, List.map_nil, List.flatten_append,
      List.flatten_cons, List.flatten_nil, List.mem_append, List.mem_singleton,
      List.append_nil]

/-- Membership in the flattened grouping of a list: exactly the grouped
elements (plus whatever the initial groups held). -/
theorem mem_flatten_groupFold {κ α : Type} [BEq κ] (key : α → κ) (x : α) :
    ∀ (l : List α) (init : List (κ × List α)),
      x ∈ ((l.foldl (fun gs v => groupInsert gs (key v) v) init).map (fun g => g.2)).flatten
        ↔ x ∈ (init.map (fun g => g.2)).flatten ∨ x ∈ l := by
  intro l
  induction l with
  | nil => intro init; simp
  | cons v tail ih =>
    intro init
    rw [List.foldl_cons, ih (groupInsert init (key v) v), mem_flatten_groupInsert]
    simp only [List.mem_cons]
    tauto

/-- C7: (1) `timeout: 3s` against `timeout: 5000ms` (no qualifier words)
yields exactly one numerical inconsistency of severity medium — 3s
normalizes to 3000 ms against 5000 ms; (2) `timeout: 5s` against
`timeout: 5000ms` normalizes to the same `(5000, ms)` key and yields no
inconsistency; (3) whenever any contributing value of a reported group
carries a context qualifier the group's severity is low, and medium
otherwise. -/
theorem C7_numerical_consistency :
    detectNumericalInconsistencies (clusterByKeyword (extractNumericalValues
        [⟨"a.md", "timeout: 3s"⟩, ⟨"b.md", "timeout: 5000ms"⟩]))
      = [{ keyword := "timeout",
           values := [{ value := ⟨3, 1⟩, rawValue := "3", unit := some "s",
                        filePath := "a.md", lineNumber := 1 },
                      { value := ⟨5000, 1⟩, rawValue := "5000", unit := some "ms",
                        filePath := "b.md", lineNumber := 1 }],
           severity := Severity.medium }]
    ∧ detectNumericalInconsistencies (clusterByKeyword (extractNumericalValues
        [⟨"a.md", "timeout: 5s"⟩, ⟨"b.md", "timeout: 5000ms"⟩])) = []
    ∧ ∀ (values : List ExtractedValue) (r : NumericalInconsistency),
        detectCluster values = some r →
        ((∃ v ∈ values, v.contextQualifiers ≠ []) → r.severity = Severity.low)
        ∧ ((∀ v ∈ values, v.contextQualifiers = []) → r.severity = Severity.medium) := by
  refine ⟨by decide, by decide, ?_⟩
  intro values r hr
  match values with
  | [] => exact absurd hr (by simp [detectCluster])
  | v0 :: rest =>
    simp only [detectCluster] at hr
    split at hr
    · exact absurd hr (by simp)
    · split at hr
      · exact absurd hr (by simp)
      · have hrr := Option.some.inj hr
        subst hrr
        have hmem : ∀ x : ExtractedValue,
            x ∈ ((((v0 :: rest).foldl
                (fun gs v => groupInsert gs (v.normalizedValue, v.baseUnit) v)
                []).map (fun g => g.2)).flatten) ↔ x ∈ v0 :: rest := by
          intro x
          rw [mem_flatten_groupFold (fun v => (v.normalizedValue, v.baseUnit)) x
            (v0 :: rest) []]
          simp
        constructor
        · rintro ⟨v, hv, hq⟩
          have hany : (((((v0 :: rest).foldl
              (fun gs v => groupInsert gs (v.normalizedValue, v.baseUnit) v)
              []).map (fun g => g.2)).flatten).any
                (fun v => !v.contextQualifiers.isEmpty)) = true := by
            rw [List.any_eq_true]
            refine ⟨v, (hmem v).mpr hv, ?_⟩
            simp only [Bool.not_eq_true']
            cases hcq : v.contextQualifiers with
            | nil => exact absurd hcq hq
            | cons a l => rfl
          dsimp only
          rw [hany]
          rfl
        · intro hall
          have hany : (((((v0 :: rest).foldl
              (fun gs v => groupInsert gs (v.normalizedValue, v.baseUnit) v)
              []).map (fun g => g.2)).flatten).any
                (fun v => !v.contextQualifiers.isEmpty)) = false := by
            rw [← Bool.not_eq_true, List.any_eq_true]
            rintro ⟨v, hv, hq⟩
            rw [hall v ((hmem v).mp hv)] at hq
            exact absurd hq (by simp)
          dsimp only
          rw [hany]
          rfl

/-- A concrete input whose first line carries the qualifier `dev`. -/
def exQualInput : List NumFile :=
  [⟨"a.md", "timeout: 3s in dev"⟩, ⟨"b.md", "timeout: 5000ms"⟩]

/-- The (single) cluster of the qualifier scenario. -/
def exQualCluster : List ExtractedValue :=
  ((clusterByKeyword (extractNumericalValues exQualInput)).headD ("", [])).2

/-- The reported inconsistency of the qualifier scenario. -/
def exQualResult : NumericalInconsistency :=
  (detectNumericalInconsistencies
      (clusterByKeyword (extractNumericalValues exQualInput))).headD
    ⟨"", [], Severity.medium⟩

/-- Witness for C7: with the qualifier `dev` on a contributing line the
reported group's severity is low. -/
theorem C7_numerical_consistency_witness :
    exQualResult.severity = Severity.low :=
  ((C7_numerical_consistency).2.2 exQualCluster exQualResult (by decide)).1 (by decide)
